import Mathlib

/-!
Verification of the yt_scraper extraction and aggregation core.

The definitions below are a shallow embedding of the Python source
`src/yt_scraper/yt_scraper.py`:

* `JSON` models a deserialized JSON document (the tree of nested
  dictionaries, lists and scalars that `json.loads` produces).
* `gen_dict_extract` embeds the generator `gen_dict_extract` (lines
  175-190): it yields every value stored under a given key, recursing
  into dict values and into list elements, where recursion into a
  non-dict list element yields nothing.
* `trim_results` embeds `trim_results` (lines 193-217).
* `analyze_sources` embeds `analyze_sources` (lines 149-172); Python
  dicts are modelled as insertion-ordered association lists, and the
  stable `sorted(..., reverse=True)` as a stable descending insertion
  sort.
* `age_to_seconds` embeds `age_to_seconds` (lines 48-78), with
  `datetime.now()` passed explicitly and exceptions modelled by
  `Except`.
* `parse_page` embeds the result-building loop of `YTScraper.search`
  (lines 344-377), with Python's `in`/`[...]` accesses modelled as
  fallible operations.
-/

namespace YtScraper

/-- A deserialized JSON value: the shape of the tree that Python's
`json.loads` hands to the extraction code. -/
inductive JSON where
  | str (s : String)
  | num (n : Int)
  | bool (b : Bool)
  | null
  | arr (xs : List JSON)
  | obj (kvs : List (String × JSON))

/-! Boolean equality on JSON trees (Python's `==` on parsed JSON). -/

mutual

/-- Python's `==` on parsed JSON values. -/
def beqJSON : JSON → JSON → Bool
  | .str a, .str b => a == b
  | .num a, .num b => a == b
  | .bool a, .bool b => a == b
  | .null, .null => true
  | .arr a, .arr b => beqJArr a b
  | .obj a, .obj b => beqJObj a b
  | _, _ => false

def beqJArr : List JSON → List JSON → Bool
  | [], [] => true
  | a :: as, b :: bs => beqJSON a b && beqJArr as bs
  | _, _ => false

def beqJObj : List (String × JSON) → List (String × JSON) → Bool
  | [], [] => true
  | (k1, v1) :: as, (k2, v2) :: bs => k1 == k2 && beqJSON v1 v2 && beqJObj as bs
  | _, _ => false

end

mutual

def beqJSON_iff (a b : JSON) : beqJSON a b = true ↔ a = b :=
  match a, b with
  | .str x, .str y => by simp [beqJSON]
  | .num x, .num y => by simp [beqJSON]
  | .bool x, .bool y => by simp [beqJSON]
  | .null, .null => by simp [beqJSON]
  | .arr x, .arr y => by simp [beqJSON, beqJArr_iff x y]
  | .obj x, .obj y => by simp [beqJSON, beqJObj_iff x y]
  | .str _, .num _ => by simp [beqJSON]
  | .str _, .bool _ => by simp [beqJSON]
  | .str _, .null => by simp [beqJSON]
  | .str _, .arr _ => by simp [beqJSON]
  | .str _, .obj _ => by simp [beqJSON]
  | .num _, .str _ => by simp [beqJSON]
  | .num _, .bool _ => by simp [beqJSON]
  | .num _, .null => by simp [beqJSON]
  | .num _, .arr _ => by simp [beqJSON]
  | .num _, .obj _ => by simp [beqJSON]
  | .bool _, .str _ => by simp [beqJSON]
  | .bool _, .num _ => by simp [beqJSON]
  | .bool _, .null => by simp [beqJSON]
  | .bool _, .arr _ => by simp [beqJSON]
  | .bool _, .obj _ => by simp [beqJSON]
  | .null, .str _ => by simp [beqJSON]
  | .null, .num _ => by simp [beqJSON]
  | .null, .bool _ => by simp [beqJSON]
  | .null, .arr _ => by simp [beqJSON]
  | .null, .obj _ => by simp [beqJSON]
  | .arr _, .str _ => by simp [beqJSON]
  | .arr _, .num _ => by simp [beqJSON]
  | .arr _, .bool _ => by simp [beqJSON]
  | .arr _, .null => by simp [beqJSON]
  | .arr _, .obj _ => by simp [beqJSON]
  | .obj _, .str _ => by simp [beqJSON]
  | .obj _, .num _ => by simp [beqJSON]
  | .obj _, .bool _ => by simp [beqJSON]
  | .obj _, .null => by simp [beqJSON]
  | .obj _, .arr _ => by simp [beqJSON]

def beqJArr_iff (a b : List JSON) : beqJArr a b = true ↔ a = b :=
  match a, b with
  | [], [] => by simp [beqJArr]
  | [], _ :: _ => by simp [beqJArr]
  | _ :: _, [] => by simp [beqJArr]
  | x :: xs, y :: ys => by
      simp [beqJArr, beqJSON_iff x y, beqJArr_iff xs ys]

def beqJObj_iff (a b : List (String × JSON)) : beqJObj a b = true ↔ a = b :=
  match a, b with
  | [], [] => by simp [beqJObj]
  | [], _ :: _ => by simp [beqJObj]
  | _ :: _, [] => by simp [beqJObj]
  | (k1, v1) :: xs, (k2, v2) :: ys => by
      simp [beqJObj, beqJSON_iff v1 v2, beqJObj_iff xs ys, and_assoc]

end

instance : DecidableEq JSON := fun a b =>
  decidable_of_iff (beqJSON a b = true) (beqJSON_iff a b)

/-! ## The nested field extractor (`gen_dict_extract`, source lines 175-190)

The Python generator tests `hasattr(var, "items")` (true exactly of
dicts here), yields `v` for every item `(k, v)` with `k == key`, recurses
into dict values, and for list values calls itself on every element
(which immediately returns nothing for non-dict elements).  The lazy
generator is modelled by the (finite) list of values it yields, in yield
order. -/

mutual

def gen_dict_extract (key : String) : JSON → List JSON
  | .obj kvs => extractItems key kvs
  | _ => []

def extractItems (key : String) : List (String × JSON) → List JSON
  | [] => []
  | (k, v) :: rest =>
      (if k = key then [v] else [])
      ++ (match v with
          | .obj kvs => extractItems key kvs
          | .arr xs => extractElems key xs
          | _ => [])
      ++ extractItems key rest

def extractElems (key : String) : List JSON → List JSON
  | [] => []
  | d :: rest => gen_dict_extract key d ++ extractElems key rest

end

/-! Full occurrence of a key anywhere in a tree (also below list-in-list
nesting, which the extractor does not visit).  Used to state that the
extractor yields nothing for a tree containing no occurrence at all. -/

mutual

def keyOccurs (key : String) : JSON → Bool
  | .obj kvs => keyOccursItems key kvs
  | .arr xs => keyOccursElems key xs
  | _ => false

def keyOccursItems (key : String) : List (String × JSON) → Bool
  | [] => false
  | (k, v) :: rest => (k = key) || keyOccurs key v || keyOccursItems key rest

def keyOccursElems (key : String) : List JSON → Bool
  | [] => false
  | d :: rest => keyOccurs key d || keyOccursElems key rest

end

/-! The spec-side traversal, written from the specification's words:
"At each mapping node, for every key-value pair: if the pair's key
equals the target key, yield the value.  Independently of that, if the
value is itself a mapping, recurse into it; if the value is a sequence,
recurse into every element that is itself a mapping.  Values that are
scalars are never recursed into."  The only presentational difference
from the source is that recursion into sequence elements is guarded by
an explicit "is a mapping" test instead of a call that no-ops on
non-mappings. -/

mutual

def specExtract (key : String) : JSON → List JSON
  | .obj kvs => specExtractPairs key kvs
  | _ => []

def specExtractPairs (key : String) : List (String × JSON) → List JSON
  | [] => []
  | (k, v) :: rest =>
      (if k = key then [v] else [])
      ++ (match v with
          | .obj kvs => specExtractPairs key kvs
          | .arr xs => specExtractSeq key xs
          | _ => [])
      ++ specExtractPairs key rest

def specExtractSeq (key : String) : List JSON → List JSON
  | [] => []
  | d :: rest =>
      (match d with
       | .obj kvs => specExtractPairs key kvs
       | _ => []) ++ specExtractSeq key rest

end

/-! Node count of a tree, bounding the number of values the extractor can
yield. -/

mutual

def treeSize : JSON → Nat
  | .obj kvs => 1 + treeSizeItems kvs
  | .arr xs => 1 + treeSizeElems xs
  | _ => 1

def treeSizeItems : List (String × JSON) → Nat
  | [] => 0
  | (_, v) :: rest => 1 + treeSize v + treeSizeItems rest

def treeSizeElems : List JSON → Nat
  | [] => 0
  | d :: rest => treeSize d + treeSizeElems rest

end

/-! A yielded value really sits under the target key somewhere in the
tree: `pairOccurs key x v` holds when some mapping node reachable in `v`
has an item `(key, x)`. -/

mutual

def pairOccurs (key : String) (x : JSON) : JSON → Bool
  | .obj kvs => pairOccursItems key x kvs
  | .arr xs => pairOccursElems key x xs
  | _ => false

def pairOccursItems (key : String) (x : JSON) : List (String × JSON) → Bool
  | [] => false
  | (k, v) :: rest =>
      (k = key && beqJSON v x) || pairOccurs key x v || pairOccursItems key x rest

def pairOccursElems (key : String) (x : JSON) : List JSON → Bool
  | [] => false
  | d :: rest => pairOccurs key x d || pairOccursElems key x rest

end

/-! ## Python dictionaries

A Python dict is modelled as an insertion-ordered association list with
pairwise-distinct keys.  `dictSet` models `d[k] = v`: it overwrites the
first binding of `k` in place, or appends a new binding at the end;
`dictGet` models `d[k]` / `d.get(k)`. -/

def dictGet {α : Type} [DecidableEq α] {β : Type} (k : α) : List (α × β) → Option β
  | [] => none
  | (k1, v) :: rest => if k1 = k then some v else dictGet k rest

def dictSet {α : Type} [DecidableEq α] {β : Type} (k : α) (v : β) :
    List (α × β) → List (α × β)
  | [] => [(k, v)]
  | (k1, v1) :: rest => if k1 = k then (k, v) :: rest else (k1, v1) :: dictSet k v rest

/-! ## Result records

One scraped entry, mirroring the dict literal built in
`YTScraper.search` (source lines 364-375).  The `source`, `title`, `url`
and `length` fields hold whatever JSON value the page data contained at
the corresponding path. -/

structure ResultRecord where
  date : String
  page : Nat
  age : String
  age_sec : Int
  source : JSON
  title : JSON
  url : JSON
  length : JSON
deriving DecidableEq

/-! ## `trim_results` (source lines 193-217)

The first loop computes the minimum of `max_length` and all list
lengths; the second builds a new dict whose lists are cut to that
length with `res[:max_length]`. -/

def trimMinLen {α : Type} (results : List (String × List α)) (max_length : Nat) : Nat :=
  results.foldl (fun ml tp => if tp.2.length < ml then tp.2.length else ml) max_length

def trim_results {α : Type} (results : List (String × List α)) (max_length : Nat) :
    List (String × List α) × Nat :=
  let m := trimMinLen results max_length
  (results.foldl (fun acc tp => dictSet tp.1 (tp.2.take m) acc) [], m)

/-! ## `analyze_sources` (source lines 149-172)

The outer dict `sources` maps a record's `source` value (an arbitrary
JSON value, in practice a channel-name string) to a per-topic counter
dict.  A source seen for the first time gets every topic initialized
to 0; then `sources[source][page_topic] += 1`, which raises `KeyError`
(modelled by `none`) when `page_topic` was not in `topics`.  After
counting, a `"total"` key is added to every counter dict, and the dict
is rebuilt ordered by total, descending, with Python's stable sort
modelled by a stable descending insertion sort. -/

abbrev Sources := List (JSON × List (String × Nat))

def initTopics (topics : List String) : List (String × Nat) :=
  topics.foldl (fun acc t => dictSet t 0 acc) []

def countIncr (page_topic : String) (src : JSON) (sources1 : Sources) :
    Option Sources :=
  match dictGet src sources1 with
  | some inner =>
      match dictGet page_topic inner with
      | some c => some (dictSet src (dictSet page_topic (c + 1) inner) sources1)
      | none => none
  | none => none

def countEntry (topics : List String) (page_topic : String) (src : JSON)
    (sources : Sources) : Option Sources :=
  countIncr page_topic src
    (match dictGet src sources with
     | none => dictSet src (initTopics topics) sources
     | some _ => sources)

def countPage (topics : List String) (page_topic : String) (sources : Sources)
    (page : ResultRecord) : Option Sources :=
  countEntry topics page_topic page.source sources

def countPages (topics : List String) (page_topic : String) (sources : Sources) :
    List ResultRecord → Option Sources
  | [] => some sources
  | p :: rest =>
      match countPage topics page_topic sources p with
      | some s2 => countPages topics page_topic s2 rest
      | none => none

def countAll (topics : List String) (sources : Sources) :
    List (String × List ResultRecord) → Option Sources
  | [] => some sources
  | tp :: rest =>
      match countPages topics tp.1 sources tp.2 with
      | some s2 => countAll topics s2 rest
      | none => none

def sumValues (d : List (String × Nat)) : Nat := (d.map Prod.snd).sum

def addTotals (sources : Sources) : Sources :=
  sources.map (fun sp => (sp.1, dictSet "total" (sumValues sp.2) sp.2))

def totalOf (inner : List (String × Nat)) : Nat := (dictGet "total" inner).getD 0

def insertRanked (x : JSON × List (String × Nat)) : Sources → Sources
  | [] => [x]
  | y :: ys => if totalOf y.2 < totalOf x.2 then x :: y :: ys else y :: insertRanked x ys

def rankSort (l : Sources) : Sources :=
  l.foldl (fun acc x => insertRanked x acc) []

def analyze_sources (results : List (String × List ResultRecord))
    (topics : List String) : Option Sources :=
  match countAll topics [] results with
  | some sources => some (rankSort (addTotals sources))
  | none => none

/-! Spec-side description of the counting phase: the stream of
`(query, source)` pairs contributed by the records in iteration order,
the per-pair occurrence count, and the sources in first-encounter
order. -/

def pageEntries (results : List (String × List ResultRecord)) : List (String × JSON) :=
  results.foldr (fun tp acc => tp.2.map (fun p => (tp.1, p.source)) ++ acc) []

def cnt (q : String) (s : JSON) (es : List (String × JSON)) : Nat :=
  es.countP (fun e => decide (e.1 = q) && decide (e.2 = s))

def firstSources (es : List (String × JSON)) : List JSON :=
  es.foldl (fun acc e => if e.2 ∈ acc then acc else acc ++ [e.2]) []

def buildSources (topics : List String) (es : List (String × JSON)) : Sources :=
  (firstSources es).map (fun s => (s, topics.map (fun q => (q, cnt q s es))))

def countEntries (topics : List String) (sources : Sources) :
    List (String × JSON) → Option Sources
  | [] => some sources
  | e :: rest =>
      match countEntry topics e.1 e.2 sources with
      | some s2 => countEntries topics s2 rest
      | none => none

/-! ## `age_to_seconds` (source lines 48-78)

The function first tests `"vor" in age_str` (substring containment).
If so, `re.match(r"vor (\\d+) (\\w+)", age_str)` is applied: an anchored
prefix match that captures a maximal digit run and then a maximal word
run, ignoring any trailing text.  A failed match leaves `age_re = None`
and the subsequent `age_re[2]` raises `TypeError`; an unrecognized unit
word raises `ValueError` with the message
`Age format not recognized: "<age_str>"`.  Otherwise the string is
parsed with `datetime.strptime(age_str, "%d.%m.%Y")` (which demands
1-2 digit day and month, an exactly 4-digit year, full consumption and
calendar validity) and the result is
`24*60*60 * (datetime.now() - parsed).days`.  `datetime.now()` is
passed explicitly as a `NowTime` (current civil date as days since
1970-01-01, plus seconds since midnight); exceptions are `Except`
errors.  The character classes model the ASCII fragment of Python's
`\\d` and `\\w`. -/

def isWordChar (c : Char) : Bool := c.isAlphanum || c == '_'

def digitsVal (ds : List Char) : Nat := ds.foldl (fun a c => 10 * a + (c.toNat - 48)) 0

def matchVorTail (rest : List Char) : Option (List Char × List Char) :=
  if (rest.takeWhile Char.isDigit).isEmpty then none
  else
    match rest.dropWhile Char.isDigit with
    | ' ' :: rest2 =>
        if (rest2.takeWhile isWordChar).isEmpty then none
        else some (rest.takeWhile Char.isDigit, rest2.takeWhile isWordChar)
    | _ => none

def matchVorChars : List Char → Option (List Char × List Char)
  | 'v' :: 'o' :: 'r' :: ' ' :: rest => matchVorTail rest
  | _ => none

def matchesVor (s : String) : Option (Nat × String) :=
  match matchVorChars s.data with
  | some (ds, ws) => some (digitsVal ds, String.mk ws)
  | none => none

def containsSeq (needle : List Char) : List Char → Bool
  | [] => needle.isEmpty
  | c :: rest => needle.isPrefixOf (c :: rest) || containsSeq needle rest

def containsVor (s : String) : Bool := containsSeq ['v', 'o', 'r'] s.data

def unit_multiplier (u : String) : Option Nat :=
  if u = "Sekunde" ∨ u = "Sekunden" then some 1
  else if u = "Minute" ∨ u = "Minuten" then some 60
  else if u = "Stunde" ∨ u = "Stunden" then some (60 * 60)
  else if u = "Tag" ∨ u = "Tagen" then some (24 * 60 * 60)
  else if u = "Woche" ∨ u = "Wochen" then some (7 * 24 * 60 * 60)
  else if u = "Monat" ∨ u = "Monaten" then some (30 * 24 * 60 * 60)
  else if u = "Jahr" ∨ u = "Jahren" then some (30 * 24 * 60 * 60 * 12)
  else none

def parse2or1 (hi : Nat) : List Char → Option (Nat × List Char)
  | a :: b :: rest =>
      if a.isDigit then
        if b.isDigit then
          if 1 ≤ 10 * (a.toNat - 48) + (b.toNat - 48)
              ∧ 10 * (a.toNat - 48) + (b.toNat - 48) ≤ hi then
            some (10 * (a.toNat - 48) + (b.toNat - 48), rest)
          else none
        else
          if 1 ≤ a.toNat - 48 ∧ a.toNat - 48 ≤ 9 then some (a.toNat - 48, b :: rest)
          else none
      else none
  | [a] =>
      if a.isDigit then
        if 1 ≤ a.toNat - 48 ∧ a.toNat - 48 ≤ 9 then some (a.toNat - 48, [])
        else none
      else none
  | [] => none

def parseYear4 : List Char → Option Nat
  | [y1, y2, y3, y4] =>
      if y1.isDigit && y2.isDigit && y3.isDigit && y4.isDigit then
        some (digitsVal [y1, y2, y3, y4])
      else none
  | _ => none

def isLeap (y : Nat) : Bool := y % 4 = 0 && (y % 100 ≠ 0 || y % 400 = 0)

def daysInMonth (y m : Nat) : Nat :=
  if m = 2 then (if isLeap y then 29 else 28)
  else if m = 4 ∨ m = 6 ∨ m = 9 ∨ m = 11 then 30
  else 31

def strptimeDate (s : String) : Option (Nat × Nat × Nat) :=
  match parse2or1 31 s.data with
  | some (d, rest1) =>
      match rest1 with
      | '.' :: rest2 =>
          match parse2or1 12 rest2 with
          | some (m, rest3) =>
              match rest3 with
              | '.' :: rest4 =>
                  match parseYear4 rest4 with
                  | some y =>
                      if 1 ≤ y ∧ d ≤ daysInMonth y m then some (d, m, y) else none
                  | none => none
              | _ => none
          | none => none
      | _ => none
  | none => none

/-- Days from 1970-01-01 to the civil date `y-m-d` (proleptic Gregorian
calendar, Howard Hinnant's `days_from_civil` algorithm), the day count
`datetime.date` subtraction is based on. -/
def days_from_civil (y m d : Nat) : Int :=
  let y2 := if m ≤ 2 then y - 1 else y
  let era := y2 / 400
  let yoe := y2 % 400
  let mp := (m + 9) % 12
  let doy := (153 * mp + 2) / 5 + (d - 1)
  let doe := yoe * 365 + yoe / 4 - yoe / 100 + doy
  ((era * 146097 + doe : Nat) : Int) - 719468

/-- The current moment: civil date as days since 1970-01-01 plus the
time of day in whole seconds (for any real time of day,
`0 ≤ secs < 86400`). -/
structure NowTime where
  epochDays : Int
  secs : Nat

/-- `timedelta.days` of `now - midnight(date)`: the floor of the
difference in days. -/
def timedelta_days (deltaDays : Int) (secs : Nat) : Int :=
  Int.fdiv (deltaDays * 86400 + secs) 86400

inductive AgeError where
  | valueError (msg : String)
  | typeError
  | strptimeError (s : String)
deriving DecidableEq

def ageFormatMsg (s : String) : String :=
  "Age format not recognized: \"" ++ s ++ "\""

def age_to_seconds (now : NowTime) (age_str : String) : Except AgeError Int :=
  if containsVor age_str then
    match matchesVor age_str with
    | none => Except.error AgeError.typeError
    | some (n, u) =>
        match unit_multiplier u with
        | some mult => Except.ok (((mult * n : Nat) : Int))
        | none => Except.error (AgeError.valueError (ageFormatMsg age_str))
  else
    match strptimeDate age_str with
    | none => Except.error (AgeError.strptimeError age_str)
    | some (d, m, y) =>
        Except.ok (24 * 60 * 60
          * timedelta_days (now.epochDays - days_from_civil y m d) now.secs)

/-! ## The result-building loop of `YTScraper.search` (source lines 344-377)

For each value found under `"videoRenderer"`, the loop tests
`"publishedTimeText" in video_renderer` (Python `in`: key membership on
dicts, element membership on lists, substring on strings, `TypeError`
otherwise), silently skips the candidate when the test is false, and
otherwise builds one record dict, evaluating in source order: the
duration (`"LIVE"` unless `thumbnailOverlays[0]` carries a
`thumbnailOverlayTimeStatusRenderer`, whose `text.simpleText` is the
duration), then the published-time display text, then the record fields
(`age_to_seconds`, owner text, title, video id).  Subscripts on
non-dicts and missing keys raise, modelled by `Except`. -/

inductive PyErr where
  | keyError (k : String)
  | indexError
  | typeError
  | ageError (e : AgeError)
deriving DecidableEq

def pyContains (key : String) (v : JSON) : Except PyErr Bool :=
  match v with
  | .obj kvs => .ok (kvs.any (fun kv => kv.1 == key))
  | .arr xs => .ok (xs.any (fun x => x == JSON.str key))
  | .str s => .ok (containsSeq key.data s.data)
  | _ => .error .typeError

def pyGet (v : JSON) (key : String) : Except PyErr JSON :=
  match v with
  | .obj kvs =>
      match dictGet key kvs with
      | some x => .ok x
      | none => .error (.keyError key)
  | _ => .error .typeError

def pyIndex0 (v : JSON) : Except PyErr JSON :=
  match v with
  | .arr (x :: _) => .ok x
  | .arr [] => .error .indexError
  | .str s =>
      match s.data with
      | c :: _ => .ok (.str (String.mk [c]))
      | [] => .error .indexError
  | .obj _ => .error (.keyError "0")
  | _ => .error .typeError

def liftAge (r : Except AgeError Int) : Except PyErr Int :=
  match r with
  | .ok v => .ok v
  | .error e => .error (.ageError e)

def buildRest (now : NowTime) (nowStr : String) (vr : JSON) (len : JSON) :
    Except PyErr (Option ResultRecord) := do
  let ptt ← pyGet vr "publishedTimeText"
  let ageJ ← pyGet ptt "simpleText"
  match ageJ with
  | .str age_str => do
      let age_sec ← liftAge (age_to_seconds now age_str)
      let ownerText ← pyGet vr "ownerText"
      let runs ← pyGet ownerText "runs"
      let run0 ← pyIndex0 runs
      let source ← pyGet run0 "text"
      let titleJ ← pyGet vr "title"
      let truns ← pyGet titleJ "runs"
      let trun0 ← pyIndex0 truns
      let title ← pyGet trun0 "text"
      let url ← pyGet vr "videoId"
      pure (some ⟨nowStr, 1, age_str, age_sec, source, title, url, len⟩)
  | _ => Except.error PyErr.typeError

def buildRecord (now : NowTime) (nowStr : String) (vr : JSON) :
    Except PyErr (Option ResultRecord) := do
  let has ← pyContains "publishedTimeText" vr
  if has then
    let overlays ← pyGet vr "thumbnailOverlays"
    let ov0 ← pyIndex0 overlays
    let hasTS ← pyContains "thumbnailOverlayTimeStatusRenderer" ov0
    let len ← if hasTS then do
        let tsr ← pyGet ov0 "thumbnailOverlayTimeStatusRenderer"
        let txt ← pyGet tsr "text"
        pyGet txt "simpleText"
      else pure (JSON.str "LIVE")
    buildRest now nowStr vr len
  else
    pure none

def parseLoop (now : NowTime) (nowStr : String) (acc : List ResultRecord) :
    List JSON → Except PyErr (List ResultRecord)
  | [] => .ok acc
  | vr :: rest =>
      match buildRecord now nowStr vr with
      | .ok (some r) => parseLoop now nowStr (acc ++ [r]) rest
      | .ok none => parseLoop now nowStr acc rest
      | .error e => .error e

def parse_page (now : NowTime) (nowStr : String) (pageData : JSON) :
    Except PyErr (List ResultRecord) :=
  parseLoop now nowStr [] (gen_dict_extract "videoRenderer" pageData)

/-! ## Example inputs used by the witnesses -/

def exTree : JSON :=
  .obj [("k", .num 1), ("a", .obj [("k", .num 2)]),
        ("b", .arr [.obj [("k", .num 3)], .obj [("x", .num 4)]])]

def recX : ResultRecord :=
  ⟨"d", 1, "vor 1 Tag", 86400, .str "X", .null, .null, .str "LIVE"⟩

def recY : ResultRecord :=
  ⟨"d", 1, "vor 1 Tag", 86400, .str "Y", .null, .null, .str "LIVE"⟩

def exResults : List (String × List ResultRecord) :=
  [("q1", [recX, recX]), ("q2", [recY])]

def exTopics : List String := ["q1", "q2"]

def vrLive : JSON := .obj [
  ("videoId", .str "id1"),
  ("thumbnailOverlays", .arr [.obj [("other", .null)]]),
  ("publishedTimeText", .obj [("simpleText", .str "vor 3 Stunden")]),
  ("ownerText", .obj [("runs", .arr [.obj [("text", .str "ChanA")]])]),
  ("title", .obj [("runs", .arr [.obj [("text", .str "TitleA")]])])]

def vrDur : JSON := .obj [
  ("videoId", .str "id2"),
  ("thumbnailOverlays", .arr [.obj [("thumbnailOverlayTimeStatusRenderer",
      .obj [("text", .obj [("simpleText", .str "10:23")])])]]),
  ("publishedTimeText", .obj [("simpleText", .str "vor 1 Tag")]),
  ("ownerText", .obj [("runs", .arr [.obj [("text", .str "ChanB")]])]),
  ("title", .obj [("runs", .arr [.obj [("text", .str "TitleB")]])])]

def vrSkip : JSON := .obj [("videoId", .str "id3")]

def exPage : JSON := .obj [("contents", .arr [
  .obj [("videoRenderer", vrLive)],
  .obj [("videoRenderer", vrSkip)],
  .obj [("videoRenderer", vrDur)]])]

def exNow : NowTime := ⟨20000, 3600⟩

mutual

theorem extract_nil_of_not_occurs (key : String) (v : JSON)
    (h : keyOccurs key v = false) : gen_dict_extract key v = [] :=
  match v, h with
  | .obj kvs, h => by
      simp only [gen_dict_extract]
      exact extractItems_nil_of_not_occurs key kvs (by simpa [keyOccurs] using h)
  | .arr _, _ => by simp [gen_dict_extract]
  | .str _, _ => by simp [gen_dict_extract]
  | .num _, _ => by simp [gen_dict_extract]
  | .bool _, _ => by simp [gen_dict_extract]
  | .null, _ => by simp [gen_dict_extract]

theorem extractItems_nil_of_not_occurs (key : String) (kvs : List (String × JSON))
    (h : keyOccursItems key kvs = false) : extractItems key kvs = [] :=
  match kvs, h with
  | [], _ => by simp [extractItems]
  | (k, .obj kvs2) :: rest, h => by
      simp only [keyOccursItems] at h
      simp at h
      obtain ⟨⟨hk, hv⟩, hrest⟩ := h
      simp only [extractItems, if_neg hk, List.nil_append]
      rw [extractItems_nil_of_not_occurs key rest hrest, List.append_nil]
      exact extractItems_nil_of_not_occurs key kvs2 (by simpa [keyOccurs] using hv)
  | (k, .arr xs) :: rest, h => by
      simp only [keyOccursItems] at h
      simp at h
      obtain ⟨⟨hk, hv⟩, hrest⟩ := h
      simp only [extractItems, if_neg hk, List.nil_append]
      rw [extractItems_nil_of_not_occurs key rest hrest, List.append_nil]
      exact extractElems_nil_of_not_occurs key xs (by simpa [keyOccurs] using hv)
  | (k, .str s) :: rest, h => by
      simp only [keyOccursItems] at h
      simp at h
      obtain ⟨⟨hk, hv⟩, hrest⟩ := h
      simp [extractItems, if_neg hk, extractItems_nil_of_not_occurs key rest hrest]
  | (k, .num n) :: rest, h => by
      simp only [keyOccursItems] at h
      simp at h
      obtain ⟨⟨hk, hv⟩, hrest⟩ := h
      simp [extractItems, if_neg hk, extractItems_nil_of_not_occurs key rest hrest]
  | (k, .bool b) :: rest, h => by
      simp only [keyOccursItems] at h
      simp at h
      obtain ⟨⟨hk, hv⟩, hrest⟩ := h
      simp [extractItems, if_neg hk, extractItems_nil_of_not_occurs key rest hrest]
  | (k, .null) :: rest, h => by
      simp only [keyOccursItems] at h
      simp at h
      obtain ⟨⟨hk, hv⟩, hrest⟩ := h
      simp [extractItems, if_neg hk, extractItems_nil_of_not_occurs key rest hrest]

theorem extractElems_nil_of_not_occurs (key : String) (xs : List JSON)
    (h : keyOccursElems key xs = false) : extractElems key xs = [] :=
  match xs, h with
  | [], _ => by simp [extractElems]
  | d :: rest, h => by
      simp only [keyOccursElems] at h
      simp at h
      simp only [extractElems]
      rw [extract_nil_of_not_occurs key d h.1, extractElems_nil_of_not_occurs key rest h.2]
      rfl

end

mutual

theorem extract_eq_specExtract (key : String) (v : JSON) :
    gen_dict_extract key v = specExtract key v :=
  match v with
  | .obj kvs => by
      simp only [gen_dict_extract, specExtract]
      exact extractItems_eq_specPairs key kvs
  | .arr _ => by simp [gen_dict_extract, specExtract]
  | .str _ => by simp [gen_dict_extract, specExtract]
  | .num _ => by simp [gen_dict_extract, specExtract]
  | .bool _ => by simp [gen_dict_extract, specExtract]
  | .null => by simp [gen_dict_extract, specExtract]

theorem extractItems_eq_specPairs (key : String) (kvs : List (String × JSON)) :
    extractItems key kvs = specExtractPairs key kvs :=
  match kvs with
  | [] => by simp [extractItems, specExtractPairs]
  | (k, .obj kvs2) :: rest => by
      simp only [extractItems, specExtractPairs]
      rw [extractItems_eq_specPairs key kvs2, extractItems_eq_specPairs key rest]
  | (k, .arr xs) :: rest => by
      simp only [extractItems, specExtractPairs]
      rw [extractElems_eq_specSeq key xs, extractItems_eq_specPairs key rest]
  | (k, .str s) :: rest => by
      simp only [extractItems, specExtractPairs]
      rw [extractItems_eq_specPairs key rest]
  | (k, .num n) :: rest => by
      simp only [extractItems, specExtractPairs]
      rw [extractItems_eq_specPairs key rest]
  | (k, .bool b) :: rest => by
      simp only [extractItems, specExtractPairs]
      rw [extractItems_eq_specPairs key rest]
  | (k, .null) :: rest => by
      simp only [extractItems, specExtractPairs]
      rw [extractItems_eq_specPairs key rest]

theorem extractElems_eq_specSeq (key : String) (xs : List JSON) :
    extractElems key xs = specExtractSeq key xs :=
  match xs with
  | [] => by simp [extractElems, specExtractSeq]
  | .obj kvs :: rest => by
      simp only [extractElems, specExtractSeq, gen_dict_extract]
      rw [extractItems_eq_specPairs key kvs, extractElems_eq_specSeq key rest]
  | .arr xs2 :: rest => by
      simp only [extractElems, specExtractSeq, gen_dict_extract]
      rw [extractElems_eq_specSeq key rest]
  | .str _ :: rest => by
      simp only [extractElems, specExtractSeq, gen_dict_extract]
      rw [extractElems_eq_specSeq key rest]
  | .num _ :: rest => by
      simp only [extractElems, specExtractSeq, gen_dict_extract]
      rw [extractElems_eq_specSeq key rest]
  | .bool _ :: rest => by
      simp only [extractElems, specExtractSeq, gen_dict_extract]
      rw [extractElems_eq_specSeq key rest]
  | .null :: rest => by
      simp only [extractElems, specExtractSeq, gen_dict_extract]
      rw [extractElems_eq_specSeq key rest]

end

mutual

theorem extract_length_le (key : String) (v : JSON) :
    (gen_dict_extract key v).length ≤ treeSize v :=
  match v with
  | .obj kvs => by
      simp only [gen_dict_extract, treeSize]
      exact le_trans (extractItems_length_le key kvs) (Nat.le_add_left _ 1)
  | .arr _ => by simp [gen_dict_extract]
  | .str _ => by simp [gen_dict_extract]
  | .num _ => by simp [gen_dict_extract]
  | .bool _ => by simp [gen_dict_extract]
  | .null => by simp [gen_dict_extract]

theorem extractItems_length_le (key : String) (kvs : List (String × JSON)) :
    (extractItems key kvs).length ≤ treeSizeItems kvs :=
  match kvs with
  | [] => by simp [extractItems, treeSizeItems]
  | (k, .obj kvs2) :: rest => by
      simp only [extractItems, treeSizeItems, List.length_append, treeSize]
      have h1 : (if k = key then [JSON.obj kvs2] else []).length ≤ 1 := by
        split <;> simp
      have h2 := extractItems_length_le key kvs2
      have h3 := extractItems_length_le key rest
      omega
  | (k, .arr xs) :: rest => by
      simp only [extractItems, treeSizeItems, List.length_append, treeSize]
      have h1 : (if k = key then [JSON.arr xs] else []).length ≤ 1 := by
        split <;> simp
      have h2 := extractElems_length_le key xs
      have h3 := extractItems_length_le key rest
      omega
  | (k, .str s) :: rest => by
      simp only [extractItems, treeSizeItems, List.length_append, List.length_nil]
      have h1 : (if k = key then [JSON.str s] else []).length ≤ 1 := by
        split <;> simp
      have h2 : treeSize (JSON.str s) = 1 := rfl
      have h3 := extractItems_length_le key rest
      omega
  | (k, .num n) :: rest => by
      simp only [extractItems, treeSizeItems, List.length_append, List.length_nil]
      have h1 : (if k = key then [JSON.num n] else []).length ≤ 1 := by
        split <;> simp
      have h2 : treeSize (JSON.num n) = 1 := rfl
      have h3 := extractItems_length_le key rest
      omega
  | (k, .bool b) :: rest => by
      simp only [extractItems, treeSizeItems, List.length_append, List.length_nil]
      have h1 : (if k = key then [JSON.bool b] else []).length ≤ 1 := by
        split <;> simp
      have h2 : treeSize (JSON.bool b) = 1 := rfl
      have h3 := extractItems_length_le key rest
      omega
  | (k, .null) :: rest => by
      simp only [extractItems, treeSizeItems, List.length_append, List.length_nil]
      have h1 : (if k = key then [JSON.null] else []).length ≤ 1 := by
        split <;> simp
      have h2 : treeSize (JSON.null) = 1 := rfl
      have h3 := extractItems_length_le key rest
      omega

theorem extractElems_length_le (key : String) (xs : List JSON) :
    (extractElems key xs).length ≤ treeSizeElems xs :=
  match xs with
  | [] => by simp [extractElems, treeSizeElems]
  | d :: rest => by
      simp only [extractElems, treeSizeElems, List.length_append]
      have h1 := extract_length_le key d
      have h2 := extractElems_length_le key rest
      omega

end

mutual

theorem pairOccurs_of_mem_extract (key : String) (x : JSON) (v : JSON)
    (h : x ∈ gen_dict_extract key v) : pairOccurs key x v = true :=
  match v, h with
  | .obj kvs, h => by
      simp only [gen_dict_extract] at h
      simp only [pairOccurs]
      exact pairOccursItems_of_mem key x kvs h
  | .arr _, h => by simp [gen_dict_extract] at h
  | .str _, h => by simp [gen_dict_extract] at h
  | .num _, h => by simp [gen_dict_extract] at h
  | .bool _, h => by simp [gen_dict_extract] at h
  | .null, h => by simp [gen_dict_extract] at h

theorem pairOccursItems_of_mem (key : String) (x : JSON) (kvs : List (String × JSON))
    (h : x ∈ extractItems key kvs) : pairOccursItems key x kvs = true :=
  match kvs, h with
  | [], h => by simp [extractItems] at h
  | (k, .obj kvs2) :: rest, h => by
      simp only [extractItems, List.mem_append] at h
      simp only [pairOccursItems, pairOccurs, Bool.or_eq_true, Bool.and_eq_true]
      rcases h with (h | h) | h
      · left; left
        constructor
        · split at h
          · simp at h
            simp [*, beqJSON_iff]
          · simp at h
        · split at h
          · simp at h
            simp [h, beqJSON_iff]
          · simp at h
      · left; right
        exact pairOccursItems_of_mem key x kvs2 h
      · right
        exact pairOccursItems_of_mem key x rest h
  | (k, .arr xs) :: rest, h => by
      simp only [extractItems, List.mem_append] at h
      simp only [pairOccursItems, pairOccurs, Bool.or_eq_true, Bool.and_eq_true]
      rcases h with (h | h) | h
      · left; left
        constructor
        · split at h
          · simp at h
            simp [*, beqJSON_iff]
          · simp at h
        · split at h
          · simp at h
            simp [h, beqJSON_iff]
          · simp at h
      · left; right
        exact pairOccursElems_of_mem key x xs h
      · right
        exact pairOccursItems_of_mem key x rest h
  | (k, .str s) :: rest, h => by
      simp only [extractItems, List.mem_append] at h
      simp only [pairOccursItems, pairOccurs, Bool.or_eq_true, Bool.and_eq_true]
      rcases h with (h | h) | h
      · left; left
        constructor
        · split at h
          · simp at h
            simp [*, beqJSON_iff]
          · simp at h
        · split at h
          · simp at h
            simp [h, beqJSON_iff]
          · simp at h
      · simp at h
      · right
        exact pairOccursItems_of_mem key x rest h
  | (k, .num n) :: rest, h => by
      simp only [extractItems, List.mem_append] at h
      simp only [pairOccursItems, pairOccurs, Bool.or_eq_true, Bool.and_eq_true]
      rcases h with (h | h) | h
      · left; left
        constructor
        · split at h
          · simp at h
            simp [*, beqJSON_iff]
          · simp at h
        · split at h
          · simp at h
            simp [h, beqJSON_iff]
          · simp at h
      · simp at h
      · right
        exact pairOccursItems_of_mem key x rest h
  | (k, .bool b) :: rest, h => by
      simp only [extractItems, List.mem_append] at h
      simp only [pairOccursItems, pairOccurs, Bool.or_eq_true, Bool.and_eq_true]
      rcases h with (h | h) | h
      · left; left
        constructor
        · split at h
          · simp at h
            simp [*, beqJSON_iff]
          · simp at h
        · split at h
          · simp at h
            simp [h, beqJSON_iff]
          · simp at h
      · simp at h
      · right
        exact pairOccursItems_of_mem key x rest h
  | (k, .null) :: rest, h => by
      simp only [extractItems, List.mem_append] at h
      simp only [pairOccursItems, pairOccurs, Bool.or_eq_true, Bool.and_eq_true]
      rcases h with (h | h) | h
      · left; left
        constructor
        · split at h
          · simp at h
            simp [*, beqJSON_iff]
          · simp at h
        · split at h
          · simp at h
            simp [h, beqJSON_iff]
          · simp at h
      · simp at h
      · right
        exact pairOccursItems_of_mem key x rest h

theorem pairOccursElems_of_mem (key : String) (x : JSON) (xs : List JSON)
    (h : x ∈ extractElems key xs) : pairOccursElems key x xs = true :=
  match xs, h with
  | [], h => by simp [extractElems] at h
  | d :: rest, h => by
      simp only [extractElems, List.mem_append] at h
      simp only [pairOccursElems, Bool.or_eq_true]
      rcases h with h | h
      · exact Or.inl (pairOccurs_of_mem_extract key x d h)
      · exact Or.inr (pairOccursElems_of_mem key x rest h)

end

theorem dictSet_append_of_get_none {α : Type} [DecidableEq α] {β : Type}
    (k : α) (v : β) (d : List (α × β)) (h : dictGet k d = none) :
    dictSet k v d = d ++ [(k, v)] := by
  induction d with
  | nil => rfl
  | cons p rest ih =>
      obtain ⟨k1, v1⟩ := p
      simp only [dictGet] at h
      simp only [dictSet]
      by_cases hk : k1 = k
      · simp [hk] at h
      · simp only [if_neg hk] at h ⊢
        rw [ih h]
        simp

theorem dictGet_append_left {α : Type} [DecidableEq α] {β : Type}
    (k : α) (d1 d2 : List (α × β)) (h : dictGet k d1 = none) :
    dictGet k (d1 ++ d2) = dictGet k d2 := by
  induction d1 with
  | nil => simp
  | cons p rest ih =>
      obtain ⟨k1, v1⟩ := p
      simp only [dictGet] at h
      by_cases hk : k1 = k
      · simp [hk] at h
      · simp only [List.cons_append, dictGet, if_neg hk] at h ⊢
        exact ih h

theorem dictGet_map_apply {α : Type} [DecidableEq α] {β : Type}
    (k : α) (l : List α) (f : α → β) :
    dictGet k (l.map (fun x => (x, f x))) = if k ∈ l then some (f k) else none := by
  induction l with
  | nil => simp [dictGet]
  | cons x rest ih =>
      simp only [List.map_cons, dictGet]
      by_cases hx : x = k
      · subst hx
        simp
      · rw [if_neg hx, ih]
        by_cases hm : k ∈ rest
        · simp [hm]
        · simp [hm, Ne.symm hx]

theorem dictSet_map_apply {α : Type} [DecidableEq α] {β : Type}
    (k : α) (v : β) (l : List α) (f : α → β) (hnd : l.Nodup) (hk : k ∈ l) :
    dictSet k v (l.map (fun x => (x, f x)))
      = l.map (fun x => (x, if x = k then v else f x)) := by
  induction l with
  | nil => simp at hk
  | cons x rest ih =>
      simp only [List.map_cons, dictSet]
      by_cases hx : x = k
      · subst hx
        rw [if_pos rfl, if_pos rfl]
        refine congrArg (fun t => (x, v) :: t) ?_
        apply List.map_congr_left
        intro y hy
        have hyx : ¬ y = x := by
          intro he
          exact (List.nodup_cons.mp hnd).1 (he ▸ hy)
        simp [hyx]
      · have hk2 : k ∈ rest := by
          rcases List.mem_cons.mp hk with h | h
          · exact absurd h.symm hx
          · exact h
        rw [if_neg hx, ih (List.nodup_cons.mp hnd).2 hk2]
        simp [hx]

theorem trimMinLen_le_start {α : Type} (results : List (String × List α))
    (max_length : Nat) : trimMinLen results max_length ≤ max_length := by
  induction results generalizing max_length with
  | nil => simp [trimMinLen]
  | cons tp rest ih =>
      simp only [trimMinLen, List.foldl_cons]
      refine le_trans (ih _) ?_
      split <;> omega

theorem trimMinLen_le_mem {α : Type} (results : List (String × List α))
    (max_length : Nat) (tp : String × List α) (h : tp ∈ results) :
    trimMinLen results max_length ≤ tp.2.length := by
  induction results generalizing max_length with
  | nil => simp at h
  | cons tp0 rest ih =>
      rcases List.mem_cons.mp h with he | hm
      · subst he
        simp only [trimMinLen, List.foldl_cons]
        refine le_trans (trimMinLen_le_start rest _) ?_
        split <;> omega
      · exact ih _ hm

theorem trimMinLen_attained {α : Type} (results : List (String × List α))
    (max_length : Nat) :
    trimMinLen results max_length = max_length
      ∨ ∃ tp ∈ results, trimMinLen results max_length = tp.2.length := by
  induction results generalizing max_length with
  | nil => left; rfl
  | cons tp0 rest ih =>
      simp only [trimMinLen, List.foldl_cons]
      by_cases hlt : tp0.2.length < max_length
      · rw [if_pos hlt]
        rcases ih tp0.2.length with h | ⟨tp, hmem, he⟩
        · right
          exact ⟨tp0, List.mem_cons_self _ _, h⟩
        · right
          exact ⟨tp, List.mem_cons_of_mem _ hmem, he⟩
      · rw [if_neg hlt]
        rcases ih max_length with h | ⟨tp, hmem, he⟩
        · left; exact h
        · right
          exact ⟨tp, List.mem_cons_of_mem _ hmem, he⟩

theorem trim_build_eq_map {α : Type} (l : List (String × List α)) (m : Nat)
    (acc : List (String × List α)) (hnd : (l.map Prod.fst).Nodup)
    (hdisj : ∀ k ∈ l.map Prod.fst, dictGet k acc = none) :
    l.foldl (fun acc tp => dictSet tp.1 (tp.2.take m) acc) acc
      = acc ++ l.map (fun tp => (tp.1, tp.2.take m)) := by
  induction l generalizing acc with
  | nil => simp
  | cons tp rest ih =>
      have hnd2 : (tp.1 :: rest.map Prod.fst).Nodup := by simpa using hnd
      have hh := List.nodup_cons.mp hnd2
      simp only [List.foldl_cons, List.map_cons]
      have h0 : dictGet tp.1 acc = none := hdisj tp.1 (by simp)
      rw [dictSet_append_of_get_none _ _ _ h0]
      rw [ih (acc ++ [(tp.1, tp.2.take m)]) hh.2 ?_]
      · simp
      · intro k hk
        rw [dictGet_append_left _ _ _ (hdisj k (by simp [hk]))]
        have hne : tp.1 ≠ k := by
          intro he
          rw [he] at hh
          exact hh.1 hk
        simp [dictGet, hne]

theorem dictGet_append_some {α : Type} [DecidableEq α] {β : Type}
    (k : α) (v : β) (d1 d2 : List (α × β)) (h : dictGet k d1 = some v) :
    dictGet k (d1 ++ d2) = some v := by
  induction d1 with
  | nil => simp [dictGet] at h
  | cons p rest ih =>
      obtain ⟨k1, v1⟩ := p
      simp only [dictGet] at h
      simp only [List.cons_append, dictGet]
      by_cases hk : k1 = k
      · simpa [hk] using h
      · rw [if_neg hk] at h ⊢
        exact ih h

theorem dictGet_some_mem {α : Type} [DecidableEq α] {β : Type}
    (k : α) (v : β) (d : List (α × β)) (h : dictGet k d = some v) : (k, v) ∈ d := by
  induction d with
  | nil => simp [dictGet] at h
  | cons p rest ih =>
      obtain ⟨k1, v1⟩ := p
      simp only [dictGet] at h
      by_cases hk : k1 = k
      · rw [if_pos hk] at h
        subst hk
        simp only [Option.some.injEq] at h
        subst h
        exact List.mem_cons_self _ _
      · rw [if_neg hk] at h
        exact List.mem_cons_of_mem _ (ih h)

theorem countPages_eq (topics : List String) (q : String) (sources : Sources)
    (pages : List ResultRecord) :
    countPages topics q sources pages
      = countEntries topics sources (pages.map (fun p => (q, p.source))) := by
  induction pages generalizing sources with
  | nil => rfl
  | cons p rest ih =>
      simp only [countPages, countPage, List.map_cons, countEntries]
      cases countEntry topics q p.source sources with
      | none => rfl
      | some s2 => exact ih s2

theorem countEntries_append (topics : List String) (sources : Sources)
    (l1 l2 : List (String × JSON)) :
    countEntries topics sources (l1 ++ l2)
      = match countEntries topics sources l1 with
        | some s2 => countEntries topics s2 l2
        | none => none := by
  induction l1 generalizing sources with
  | nil => rfl
  | cons e rest ih =>
      simp only [List.cons_append, countEntries]
      cases countEntry topics e.1 e.2 sources with
      | none => rfl
      | some s2 => exact ih s2

theorem countAll_eq (topics : List String) (sources : Sources)
    (results : List (String × List ResultRecord)) :
    countAll topics sources results = countEntries topics sources (pageEntries results) := by
  induction results generalizing sources with
  | nil => rfl
  | cons tp rest ih =>
      simp only [countAll, pageEntries, List.foldr_cons]
      rw [countEntries_append]
      rw [countPages_eq]
      cases countEntries topics sources (tp.2.map (fun p => (tp.1, p.source))) with
      | none => rfl
      | some s2 => exact ih s2

theorem firstSources_append_one (es : List (String × JSON)) (e : String × JSON) :
    firstSources (es ++ [e])
      = if e.2 ∈ firstSources es then firstSources es else firstSources es ++ [e.2] := by
  simp [firstSources, List.foldl_append]

theorem mem_firstsAux (es : List (String × JSON)) (acc : List JSON) (s : JSON) :
    s ∈ es.foldl (fun acc e => if e.2 ∈ acc then acc else acc ++ [e.2]) acc
      ↔ s ∈ acc ∨ s ∈ es.map Prod.snd := by
  induction es generalizing acc with
  | nil => simp
  | cons e rest ih =>
      simp only [List.foldl_cons, List.map_cons, List.mem_cons]
      rw [ih]
      by_cases he : e.2 ∈ acc
      · rw [if_pos he]
        constructor
        · rintro (h | h)
          · exact Or.inl h
          · exact Or.inr (Or.inr h)
        · rintro (h | h | h)
          · exact Or.inl h
          · exact Or.inl (h ▸ he)
          · exact Or.inr h
      · rw [if_neg he]
        simp only [List.mem_append, List.mem_singleton]
        constructor
        · rintro ((h | h) | h)
          · exact Or.inl h
          · exact Or.inr (Or.inl h)
          · exact Or.inr (Or.inr h)
        · rintro (h | h | h)
          · exact Or.inl (Or.inl h)
          · exact Or.inl (Or.inr h)
          · exact Or.inr h

theorem firstSources_mem (es : List (String × JSON)) (s : JSON) :
    s ∈ firstSources es ↔ s ∈ es.map Prod.snd := by
  rw [firstSources, mem_firstsAux]
  simp

theorem nodup_firstsAux (es : List (String × JSON)) (acc : List JSON)
    (h : acc.Nodup) :
    (es.foldl (fun acc e => if e.2 ∈ acc then acc else acc ++ [e.2]) acc).Nodup := by
  induction es generalizing acc with
  | nil => exact h
  | cons e rest ih =>
      simp only [List.foldl_cons]
      by_cases he : e.2 ∈ acc
      · rw [if_pos he]
        exact ih acc h
      · rw [if_neg he]
        refine ih _ ?_
        simp [List.nodup_append, h, he]

theorem firstSources_nodup (es : List (String × JSON)) : (firstSources es).Nodup :=
  nodup_firstsAux es [] List.nodup_nil

theorem cnt_append (q : String) (s : JSON) (es1 es2 : List (String × JSON)) :
    cnt q s (es1 ++ es2) = cnt q s es1 + cnt q s es2 := by
  simp [cnt, List.countP_append]

theorem cnt_single (q : String) (s : JSON) (q1 : String) (s1 : JSON) :
    cnt q s [(q1, s1)] = if q1 = q ∧ s1 = s then 1 else 0 := by
  simp only [cnt, List.countP_cons, List.countP_nil, Nat.zero_add]
  by_cases h1 : q1 = q <;> by_cases h2 : s1 = s <;> simp [h1, h2]

theorem cnt_zero_of_not_mem_snd (q : String) (s : JSON) (es : List (String × JSON))
    (h : s ∉ es.map Prod.snd) : cnt q s es = 0 := by
  rw [cnt, List.countP_eq_zero]
  intro e he
  have : e.2 ≠ s := by
    intro h2
    exact h (List.mem_map.mpr ⟨e, he, h2⟩)
  simp [this]

theorem initTopicsAux (topics : List String) (acc : List (String × Nat))
    (hnd : topics.Nodup) (hdisj : ∀ t ∈ topics, dictGet t acc = none) :
    topics.foldl (fun acc t => dictSet t 0 acc) acc
      = acc ++ topics.map (fun t => (t, (0 : Nat))) := by
  induction topics generalizing acc with
  | nil => simp
  | cons t rest ih =>
      have hh := List.nodup_cons.mp hnd
      simp only [List.foldl_cons, List.map_cons]
      rw [dictSet_append_of_get_none _ _ _ (hdisj t (by simp))]
      rw [ih (acc ++ [(t, 0)]) hh.2 ?_]
      · simp
      · intro t2 ht2
        rw [dictGet_append_left _ _ _ (hdisj t2 (by simp [ht2]))]
        have hne : t ≠ t2 := by
          intro he
          rw [he] at hh
          exact hh.1 ht2
        simp [dictGet, hne]

theorem initTopics_eq_map (topics : List String) (hnd : topics.Nodup) :
    initTopics topics = topics.map (fun t => (t, (0 : Nat))) := by
  rw [initTopics, initTopicsAux topics [] hnd (by simp [dictGet])]
  simp

theorem countInner_step (topics : List String) (hnd : topics.Nodup)
    (P : List (String × JSON)) (q : String) (s : JSON) (hq : q ∈ topics) :
    dictSet q (cnt q s P + 1) (topics.map (fun q1 => (q1, cnt q1 s P)))
      = topics.map (fun q1 => (q1, cnt q1 s (P ++ [(q, s)]))) := by
  rw [dictSet_map_apply q _ topics _ hnd hq]
  apply List.map_congr_left
  intro q1 _
  rw [cnt_append, cnt_single]
  by_cases h : q1 = q
  · subst h
    simp
  · have h2 : ¬q = q1 := fun hc => h hc.symm
    simp [h, h2]

theorem countEntry_build (topics : List String) (hnd : topics.Nodup)
    (P : List (String × JSON)) (q : String) (s : JSON) (hq : q ∈ topics) :
    countEntry topics q s (buildSources topics P)
      = some (buildSources topics (P ++ [(q, s)])) := by
  have hFSnd := firstSources_nodup P
  have hgetq : dictGet q (topics.map (fun q1 => (q1, cnt q1 s P)))
      = some (cnt q s P) := by
    rw [dictGet_map_apply, if_pos hq]
  by_cases hs : s ∈ firstSources P
  · have hget : dictGet s (buildSources topics P)
        = some (topics.map (fun q1 => (q1, cnt q1 s P))) := by
      rw [buildSources, dictGet_map_apply, if_pos hs]
    have houter : dictSet s (topics.map (fun q1 => (q1, cnt q1 s (P ++ [(q, s)]))))
        (buildSources topics P) = buildSources topics (P ++ [(q, s)]) := by
      rw [buildSources, dictSet_map_apply s _ _ _ hFSnd hs]
      rw [buildSources, firstSources_append_one, if_pos hs]
      apply List.map_congr_left
      intro s1 _
      by_cases h : s1 = s
      · subst h
        simp
      · simp only [if_neg h, Prod.mk.injEq, true_and]
        apply List.map_congr_left
        intro q1 _
        rw [cnt_append, cnt_single]
        have h2 : ¬(q = q1 ∧ s = s1) := fun hc => h hc.2.symm
        simp [h2]
    simp only [countEntry, hget]
    simp only [countIncr, hget, hgetq]
    rw [countInner_step topics hnd P q s hq, houter]
  · have hget0 : dictGet s (buildSources topics P) = none := by
      rw [buildSources, dictGet_map_apply, if_neg hs]
    have hcnt0 : ∀ q1, cnt q1 s P = 0 := by
      intro q1
      apply cnt_zero_of_not_mem_snd
      rwa [← firstSources_mem]
    have hinit : initTopics topics = topics.map (fun q1 => (q1, cnt q1 s P)) := by
      rw [initTopics_eq_map topics hnd]
      apply List.map_congr_left
      intro q1 _
      simp [hcnt0 q1]
    have hsrc1 : dictSet s (initTopics topics) (buildSources topics P)
        = (firstSources P ++ [s]).map
            (fun s1 => (s1, topics.map (fun q1 => (q1, cnt q1 s1 P)))) := by
      rw [dictSet_append_of_get_none _ _ _ hget0, hinit, buildSources, List.map_append]
      rfl
    have hFS2nd : (firstSources P ++ [s]).Nodup := by
      simp [List.nodup_append, hFSnd, hs]
    have hgets1 : dictGet s ((firstSources P ++ [s]).map
          (fun s1 => (s1, topics.map (fun q1 => (q1, cnt q1 s1 P)))))
        = some (topics.map (fun q1 => (q1, cnt q1 s P))) := by
      rw [dictGet_map_apply]
      simp
    have houter : dictSet s (topics.map (fun q1 => (q1, cnt q1 s (P ++ [(q, s)]))))
          ((firstSources P ++ [s]).map
            (fun s1 => (s1, topics.map (fun q1 => (q1, cnt q1 s1 P)))))
        = buildSources topics (P ++ [(q, s)]) := by
      rw [dictSet_map_apply s _ _ _ hFS2nd (by simp)]
      rw [buildSources, firstSources_append_one, if_neg hs]
      apply List.map_congr_left
      intro s1 _
      by_cases h : s1 = s
      · subst h
        simp
      · simp only [if_neg h, Prod.mk.injEq, true_and]
        apply List.map_congr_left
        intro q1 _
        rw [cnt_append, cnt_single]
        have h2 : ¬(q = q1 ∧ s = s1) := fun hc => h hc.2.symm
        simp [h2]
    simp only [countEntry, hget0]
    rw [hsrc1]
    simp only [countIncr, hgets1, hgetq]
    rw [countInner_step topics hnd P q s hq, houter]

theorem countEntries_build (topics : List String) (hnd : topics.Nodup)
    (es : List (String × JSON)) (P : List (String × JSON))
    (hq : ∀ e ∈ es, e.1 ∈ topics) :
    countEntries topics (buildSources topics P) es
      = some (buildSources topics (P ++ es)) := by
  induction es generalizing P with
  | nil => simp [countEntries]
  | cons e rest ih =>
      simp only [countEntries]
      have h1 : countEntry topics e.1 e.2 (buildSources topics P)
          = some (buildSources topics (P ++ [e])) := by
        have := countEntry_build topics hnd P e.1 e.2 (hq e (by simp))
        simpa using this
      rw [h1]
      have h2 := ih (P ++ [e]) (fun e2 he2 => hq e2 (List.mem_cons_of_mem _ he2))
      show countEntries topics (buildSources topics (P ++ [e])) rest
          = some (buildSources topics (P ++ e :: rest))
      rw [h2]
      simp

theorem countAll_build (topics : List String)
    (results : List (String × List ResultRecord)) (hnd : topics.Nodup)
    (hkeys : ∀ e ∈ pageEntries results, e.1 ∈ topics) :
    countAll topics [] results
      = some (buildSources topics (pageEntries results)) := by
  rw [countAll_eq]
  have h0 : buildSources topics ([] : List (String × JSON)) = [] := rfl
  have := countEntries_build topics hnd (pageEntries results) [] hkeys
  rw [h0] at this
  simpa using this

theorem pageEntries_fst_mem (results : List (String × List ResultRecord))
    (e : String × JSON) (he : e ∈ pageEntries results) :
    ∃ tp ∈ results, e.1 = tp.1 := by
  induction results with
  | nil => simp [pageEntries] at he
  | cons tp rest ih =>
      simp only [pageEntries, List.foldr_cons, List.mem_append] at he
      rcases he with h | h
      · obtain ⟨p, _, hpe⟩ := List.mem_map.mp h
        exact ⟨tp, by simp, by rw [← hpe]⟩
      · obtain ⟨tp2, htp2, he2⟩ := ih h
        exact ⟨tp2, List.mem_cons_of_mem _ htp2, he2⟩

theorem insertRanked_perm (x : JSON × List (String × Nat)) (l : Sources) :
    (insertRanked x l).Perm (x :: l) := by
  induction l with
  | nil => exact List.Perm.refl _
  | cons y ys ih =>
      simp only [insertRanked]
      by_cases h : totalOf y.2 < totalOf x.2
      · rw [if_pos h]
      · rw [if_neg h]
        exact (List.Perm.cons y ih).trans (List.Perm.swap x y ys)

theorem rankSort_aux_perm (l acc : Sources) :
    (l.foldl (fun a x => insertRanked x a) acc).Perm (acc ++ l) := by
  induction l generalizing acc with
  | nil => simp
  | cons x rest ih =>
      simp only [List.foldl_cons]
      refine (ih (insertRanked x acc)).trans ?_
      refine (List.Perm.append_right rest (insertRanked_perm x acc)).trans ?_
      exact List.perm_middle.symm

theorem rankSort_perm (l : Sources) : (rankSort l).Perm l := by
  have := rankSort_aux_perm l []
  simpa [rankSort] using this

theorem insertRanked_pairwise (x : JSON × List (String × Nat)) (l : Sources)
    (h : l.Pairwise (fun a b => totalOf b.2 ≤ totalOf a.2)) :
    (insertRanked x l).Pairwise (fun a b => totalOf b.2 ≤ totalOf a.2) := by
  induction l with
  | nil => simp [insertRanked]
  | cons y ys ih =>
      obtain ⟨hy, hys⟩ := List.pairwise_cons.mp h
      simp only [insertRanked]
      by_cases hc : totalOf y.2 < totalOf x.2
      · rw [if_pos hc]
        refine List.pairwise_cons.mpr ⟨?_, h⟩
        intro b hb
        rcases List.mem_cons.mp hb with he | hb2
        · exact he ▸ le_of_lt hc
        · exact le_trans (hy b hb2) (le_of_lt hc)
      · rw [if_neg hc]
        refine List.pairwise_cons.mpr ⟨?_, ih hys⟩
        intro b hb
        have hb2 : b ∈ x :: ys := (insertRanked_perm x ys).subset hb
        rcases List.mem_cons.mp hb2 with he | hb3
        · exact he ▸ Nat.le_of_not_lt hc
        · exact hy b hb3

theorem rankSort_aux_pairwise (l acc : Sources)
    (h : acc.Pairwise (fun a b => totalOf b.2 ≤ totalOf a.2)) :
    (l.foldl (fun a x => insertRanked x a) acc).Pairwise
      (fun a b => totalOf b.2 ≤ totalOf a.2) := by
  induction l generalizing acc with
  | nil => exact h
  | cons x rest ih =>
      simp only [List.foldl_cons]
      exact ih _ (insertRanked_pairwise x acc h)

theorem rankSort_pairwise (l : Sources) :
    (rankSort l).Pairwise (fun a b => totalOf b.2 ≤ totalOf a.2) :=
  rankSort_aux_pairwise l [] List.Pairwise.nil

theorem insertRanked_filter (x : JSON × List (String × Nat)) (l : Sources) (t : Nat)
    (h : l.Pairwise (fun a b => totalOf b.2 ≤ totalOf a.2)) :
    (insertRanked x l).filter (fun y => decide (totalOf y.2 = t))
      = l.filter (fun y => decide (totalOf y.2 = t))
        ++ (if totalOf x.2 = t then [x] else []) := by
  induction l with
  | nil =>
      by_cases hx : totalOf x.2 = t <;> simp [insertRanked, List.filter_cons, hx]
  | cons y ys ih =>
      obtain ⟨hy, hys⟩ := List.pairwise_cons.mp h
      simp only [insertRanked]
      by_cases hc : totalOf y.2 < totalOf x.2
      · rw [if_pos hc]
        by_cases hx : totalOf x.2 = t
        · have hnil : (y :: ys).filter (fun z => decide (totalOf z.2 = t)) = [] := by
            rw [List.filter_eq_nil_iff]
            intro z hz
            have hle : totalOf z.2 ≤ totalOf y.2 := by
              rcases List.mem_cons.mp hz with he | hz2
              · exact he ▸ le_refl _
              · exact hy z hz2
            have hlt : totalOf z.2 < totalOf x.2 := lt_of_le_of_lt hle hc
            simp only [decide_eq_true_eq]
            omega
          rw [List.filter_cons_of_pos (by simp [hx]), hnil]
          simp [hx]
        · rw [List.filter_cons_of_neg (by simp [hx])]
          simp [hx]
      · rw [if_neg hc]
        by_cases hyt : totalOf y.2 = t
        · rw [List.filter_cons_of_pos (by simp [hyt]), List.filter_cons_of_pos (by simp [hyt])]
          rw [ih hys]
          simp
        · rw [List.filter_cons_of_neg (by simp [hyt]), List.filter_cons_of_neg (by simp [hyt])]
          exact ih hys

theorem rankSort_aux_filter (l acc : Sources) (t : Nat)
    (h : acc.Pairwise (fun a b => totalOf b.2 ≤ totalOf a.2)) :
    (l.foldl (fun a x => insertRanked x a) acc).filter (fun y => decide (totalOf y.2 = t))
      = acc.filter (fun y => decide (totalOf y.2 = t))
        ++ l.filter (fun y => decide (totalOf y.2 = t)) := by
  induction l generalizing acc with
  | nil => simp
  | cons x rest ih =>
      simp only [List.foldl_cons]
      rw [ih _ (insertRanked_pairwise x acc h)]
      rw [insertRanked_filter x acc t h]
      by_cases hx : totalOf x.2 = t
      · rw [List.filter_cons_of_pos (by simp [hx])]
        simp [hx]
      · rw [List.filter_cons_of_neg (by simp [hx])]
        simp [hx]

theorem rankSort_filter (l : Sources) (t : Nat) :
    (rankSort l).filter (fun y => decide (totalOf y.2 = t))
      = l.filter (fun y => decide (totalOf y.2 = t)) := by
  have := rankSort_aux_filter l [] t List.Pairwise.nil
  simpa [rankSort] using this

theorem cnt_fst_zero (q : String) (s : JSON) (es : List (String × JSON))
    (h : ∀ e ∈ es, e.1 ≠ q) : cnt q s es = 0 := by
  rw [cnt, List.countP_eq_zero]
  intro e he
  simp [h e he]

theorem cnt_pageEntries_get (results : List (String × List ResultRecord))
    (hres : (results.map Prod.fst).Nodup) (q : String)
    (pages : List ResultRecord) (hget : dictGet q results = some pages) (s : JSON) :
    cnt q s (pageEntries results) = pages.countP (fun r => decide (r.source = s)) := by
  induction results with
  | nil => simp [dictGet] at hget
  | cons tp rest ih =>
      have hnd2 : (tp.1 :: rest.map Prod.fst).Nodup := by simpa using hres
      have hh := List.nodup_cons.mp hnd2
      simp only [pageEntries, List.foldr_cons]
      rw [show (List.foldr (fun tp acc => tp.2.map (fun p => (tp.1, p.source)) ++ acc)
          [] rest) = pageEntries rest from rfl]
      rw [cnt_append]
      simp only [dictGet] at hget
      by_cases hq : tp.1 = q
      · rw [if_pos hq] at hget
        have hpages : pages = tp.2 := (Option.some.injEq _ _).mp hget.symm
        subst hpages
        subst hq
        have h1 : cnt tp.1 s (tp.2.map (fun p => (tp.1, p.source)))
            = tp.2.countP (fun r => decide (r.source = s)) := by
          rw [cnt, List.countP_map]
          apply List.countP_congr
          intro r _
          simp [Function.comp]
        have h2 : cnt tp.1 s (pageEntries rest) = 0 := by
          apply cnt_fst_zero
          intro e he
          obtain ⟨tp2, htp2, heq⟩ := pageEntries_fst_mem rest e he
          rw [heq]
          intro hc
          exact hh.1 (List.mem_map.mpr ⟨tp2, htp2, hc⟩)
        omega
      · rw [if_neg hq] at hget
        have h1 : cnt q s (tp.2.map (fun p => (tp.1, p.source))) = 0 := by
          apply cnt_fst_zero
          intro e he
          obtain ⟨p, _, hpe⟩ := List.mem_map.mp he
          rw [← hpe]
          exact hq
        rw [h1, ih hh.2 hget]
        omega

theorem addTotals_fst (l : Sources) : (addTotals l).map Prod.fst = l.map Prod.fst := by
  simp [addTotals]

theorem buildSources_fst (topics : List String) (es : List (String × JSON)) :
    (buildSources topics es).map Prod.fst = firstSources es := by
  rw [buildSources, List.map_map]
  have h : (Prod.fst ∘ fun s => (s, topics.map (fun q => (q, cnt q s es)))) = id := rfl
  rw [h, List.map_id]

theorem mem_addTotals_build (topics : List String) (es : List (String × JSON))
    (s : JSON) (inner : List (String × Nat))
    (h : (s, inner) ∈ addTotals (buildSources topics es)) :
    s ∈ firstSources es
      ∧ inner = dictSet "total" (sumValues (topics.map (fun q => (q, cnt q s es))))
          (topics.map (fun q => (q, cnt q s es))) := by
  simp only [addTotals, buildSources, List.map_map, List.mem_map, Function.comp] at h
  obtain ⟨s1, hs1, he⟩ := h
  have h1 : s1 = s := congrArg Prod.fst he
  subst h1
  exact ⟨hs1, (congrArg Prod.snd he).symm⟩

theorem sumValues_base (topics : List String) (f : String → Nat) :
    sumValues (topics.map (fun q => (q, f q))) = (topics.map f).sum := by
  rw [sumValues, List.map_map]
  rfl

theorem inner_total_get (topics : List String) (htot : "total" ∉ topics)
    (f : String → Nat) :
    dictGet "total" (dictSet "total" (sumValues (topics.map (fun q => (q, f q))))
        (topics.map (fun q => (q, f q))))
      = some ((topics.map f).sum) := by
  have hnone : dictGet "total" (topics.map (fun q => (q, f q))) = none := by
    rw [dictGet_map_apply, if_neg htot]
  rw [dictSet_append_of_get_none _ _ _ hnone]
  rw [dictGet_append_left _ _ _ hnone]
  simp [dictGet, sumValues_base]

theorem inner_topic_get (topics : List String) (htot : "total" ∉ topics)
    (f : String → Nat) (q : String) (hq : q ∈ topics) :
    dictGet q (dictSet "total" (sumValues (topics.map (fun q1 => (q1, f q1))))
        (topics.map (fun q1 => (q1, f q1))))
      = some (f q) := by
  have hnone : dictGet "total" (topics.map (fun q1 => (q1, f q1))) = none := by
    rw [dictGet_map_apply, if_neg htot]
  rw [dictSet_append_of_get_none _ _ _ hnone]
  apply dictGet_append_some
  rw [dictGet_map_apply, if_pos hq]

theorem matchVorTail_some (rest ds ws : List Char)
    (h : matchVorTail rest = some (ds, ws)) :
    ∃ tail, rest = ds ++ ' ' :: (ws ++ tail) := by
  rw [matchVorTail] at h
  split at h
  · exact absurd h (by simp)
  · split at h
    · rename_i rest2 hdrop
      split at h
      · exact absurd h (by simp)
      · simp only [Option.some.injEq, Prod.mk.injEq] at h
        obtain ⟨hd, hw⟩ := h
        refine ⟨rest2.dropWhile isWordChar, ?_⟩
        conv_lhs => rw [← List.takeWhile_append_dropWhile Char.isDigit rest]
        rw [hdrop, ← hd, ← hw, List.takeWhile_append_dropWhile]
    · exact absurd h (by simp)

theorem matchVorChars_some (cs ds ws : List Char)
    (h : matchVorChars cs = some (ds, ws)) :
    ∃ rest, cs = 'v' :: 'o' :: 'r' :: ' ' :: (ds ++ ' ' :: (ws ++ rest)) := by
  unfold matchVorChars at h
  split at h
  · rename_i rest0
    obtain ⟨tail, htail⟩ := matchVorTail_some rest0 ds ws h
    exact ⟨tail, by rw [htail]⟩
  · exact absurd h (by simp)

theorem matchesVor_decomp (s : String) (n : Nat) (u : String)
    (h : matchesVor s = some (n, u)) :
    ∃ ds rest, s.data = 'v' :: 'o' :: 'r' :: ' ' :: (ds ++ ' ' :: (u.data ++ rest))
      ∧ n = digitsVal ds := by
  rw [matchesVor] at h
  split at h
  · rename_i ds ws hmv
    simp only [Option.some.injEq, Prod.mk.injEq] at h
    obtain ⟨hn, hu⟩ := h
    obtain ⟨rest, hdec⟩ := matchVorChars_some s.data ds ws hmv
    refine ⟨ds, rest, ?_, hn.symm⟩
    rw [hdec, ← hu]
  · exact absurd h (by simp)

theorem containsVor_of_matches (s : String) (n : Nat) (u : String)
    (h : matchesVor s = some (n, u)) : containsVor s = true := by
  obtain ⟨ds, rest, hdec, _⟩ := matchesVor_decomp s n u h
  rw [containsVor, hdec]
  rfl

theorem age_to_seconds_rel_ok (now : NowTime) (s : String) (n : Nat) (u : String)
    (mult : Nat) (hm : matchesVor s = some (n, u))
    (hu : unit_multiplier u = some mult) :
    age_to_seconds now s = Except.ok (((mult * n : Nat) : Int)) := by
  rw [age_to_seconds, if_pos (containsVor_of_matches s n u hm), hm]
  show (match unit_multiplier u with
    | some mult => Except.ok (((mult * n : Nat) : Int))
    | none => Except.error (AgeError.valueError (ageFormatMsg s))) = _
  rw [hu]

theorem age_to_seconds_rel_err (now : NowTime) (s : String) (n : Nat) (u : String)
    (hm : matchesVor s = some (n, u)) (hu : unit_multiplier u = none) :
    age_to_seconds now s = Except.error (AgeError.valueError (ageFormatMsg s)) := by
  rw [age_to_seconds, if_pos (containsVor_of_matches s n u hm), hm]
  show (match unit_multiplier u with
    | some mult => Except.ok (((mult * n : Nat) : Int))
    | none => Except.error (AgeError.valueError (ageFormatMsg s))) = _
  rw [hu]

theorem ageFormatMsg_contains_unit (s : String) (n : Nat) (u : String)
    (h : matchesVor s = some (n, u)) :
    ∃ pre post, (ageFormatMsg s).data = pre ++ u.data ++ post := by
  obtain ⟨ds, rest, hdec, _⟩ := matchesVor_decomp s n u h
  refine ⟨("Age format not recognized: \"").data ++ ('v' :: 'o' :: 'r' :: ' ' :: ds ++ [' ']),
      rest ++ ("\"").data, ?_⟩
  rw [ageFormatMsg, String.data_append, String.data_append, hdec]
  simp

theorem parse2or1_digits (hi : Nat) (cs : List Char) (v : Nat) (rest : List Char)
    (h : parse2or1 hi cs = some (v, rest)) :
    ∃ pre, cs = pre ++ rest ∧ ∀ c ∈ pre, c.isDigit = true :=
  match cs, h with
  | a :: b :: rest0, h => by
      simp only [parse2or1] at h
      split at h
      · rename_i ha
        split at h
        · rename_i hb
          split at h
          · simp only [Option.some.injEq, Prod.mk.injEq] at h
            refine ⟨[a, b], ?_, ?_⟩
            · rw [← h.2]
              rfl
            · intro c hc
              rcases List.mem_cons.mp hc with he | hc2
              · exact he ▸ ha
              · rcases List.mem_cons.mp hc2 with he | hc3
                · exact he ▸ hb
                · simp at hc3
          · exact absurd h (by simp)
        · split at h
          · simp only [Option.some.injEq, Prod.mk.injEq] at h
            refine ⟨[a], ?_, ?_⟩
            · rw [← h.2]
              rfl
            · intro c hc
              rcases List.mem_cons.mp hc with he | hc2
              · exact he ▸ ha
              · simp at hc2
          · exact absurd h (by simp)
      · exact absurd h (by simp)
  | [a], h => by
      simp only [parse2or1] at h
      split at h
      · rename_i ha
        split at h
        · simp only [Option.some.injEq, Prod.mk.injEq] at h
          refine ⟨[a], ?_, ?_⟩
          · rw [← h.2]
            rfl
          · intro c hc
            rcases List.mem_cons.mp hc with he | hc2
            · exact he ▸ ha
            · simp at hc2
        · exact absurd h (by simp)
      · exact absurd h (by simp)

theorem parseYear4_digits (cs : List Char) (y : Nat) (h : parseYear4 cs = some y) :
    ∀ c ∈ cs, c.isDigit = true :=
  match cs, h with
  | [y1, y2, y3, y4], h => by
      simp only [parseYear4] at h
      split at h
      · rename_i hd
        simp only [Bool.and_eq_true] at hd
        intro c hc
        rcases List.mem_cons.mp hc with he | hc
        · exact he ▸ hd.1.1.1
        rcases List.mem_cons.mp hc with he | hc
        · exact he ▸ hd.1.1.2
        rcases List.mem_cons.mp hc with he | hc
        · exact he ▸ hd.1.2
        rcases List.mem_cons.mp hc with he | hc
        · exact he ▸ hd.2
        · simp at hc
      · exact absurd h (by simp)

theorem strptimeDate_chars (s : String) (d m y : Nat)
    (h : strptimeDate s = some (d, m, y)) :
    ∀ c ∈ s.data, c.isDigit = true ∨ c = '.' := by
  rw [strptimeDate] at h
  split at h
  · rename_i d0 rest1 hd0
    split at h
    · rename_i rest2
      split at h
      · rename_i m0 rest3 hm0
        split at h
        · rename_i rest4
          split at h
          · rename_i y0 hy0
            obtain ⟨pre1, he1, hdig1⟩ := parse2or1_digits 31 s.data d0 _ hd0
            obtain ⟨pre2, he2, hdig2⟩ := parse2or1_digits 12 rest2 m0 _ hm0
            have hdig4 := parseYear4_digits rest4 y0 hy0
            intro c hc
            rw [he1] at hc
            rcases List.mem_append.mp hc with hc | hc
            · exact Or.inl (hdig1 c hc)
            rcases List.mem_cons.mp hc with hc | hc
            · exact Or.inr hc
            rw [he2] at hc
            rcases List.mem_append.mp hc with hc | hc
            · exact Or.inl (hdig2 c hc)
            rcases List.mem_cons.mp hc with hc | hc
            · exact Or.inr hc
            · exact Or.inl (hdig4 c hc)
          · exact absurd h (by simp)
        · exact absurd h (by simp)
      · exact absurd h (by simp)
    · exact absurd h (by simp)
  · exact absurd h (by simp)

theorem no_vor_of_digit_dot (l : List Char)
    (h : ∀ c ∈ l, c.isDigit = true ∨ c = '.') :
    containsSeq ['v', 'o', 'r'] l = false := by
  induction l with
  | nil => rfl
  | cons c rest ih =>
      have hv : ('v' == c) = false := by
        cases hc : ('v' == c) with
        | false => rfl
        | true =>
            have he : 'v' = c := eq_of_beq hc
            rcases h c (by simp) with hd | hd
            · rw [← he] at hd
              simp at hd
            · rw [← he] at hd
              simp at hd
      simp only [containsSeq, Bool.or_eq_false_iff]
      constructor
      · show (['v', 'o', 'r'].isPrefixOf (c :: rest)) = false
        simp only [List.isPrefixOf, Bool.and_eq_false_iff]
        exact Or.inl hv
      · exact ih (fun c2 hc2 => h c2 (List.mem_cons_of_mem _ hc2))

theorem containsVor_false_of_strptime (s : String) (d m y : Nat)
    (h : strptimeDate s = some (d, m, y)) : containsVor s = false :=
  no_vor_of_digit_dot s.data (strptimeDate_chars s d m y h)

theorem timedelta_days_floor (D : Int) (secs : Nat) (hs : secs < 86400) :
    timedelta_days D secs = D := by
  rw [timedelta_days, Int.fdiv_eq_ediv _ (by norm_num)]
  rw [add_comm, Int.add_mul_ediv_right _ _ (by norm_num : (86400 : Int) ≠ 0)]
  rw [Int.ediv_eq_zero_of_lt (Int.ofNat_nonneg secs) (by exact_mod_cast hs)]
  omega

theorem age_to_seconds_abs_ok (now : NowTime) (s : String) (d m y : Nat)
    (hsecs : now.secs < 86400) (h : strptimeDate s = some (d, m, y)) :
    age_to_seconds now s
      = Except.ok (86400 * (now.epochDays - days_from_civil y m d)) := by
  have hv := containsVor_false_of_strptime s d m y h
  rw [age_to_seconds, if_neg (by simp [hv]), h]
  show Except.ok (24 * 60 * 60
      * timedelta_days (now.epochDays - days_from_civil y m d) now.secs) = _
  rw [timedelta_days_floor _ _ hsecs]
  norm_num

theorem age_to_seconds_err_of_no_match (now : NowTime) (s : String)
    (hm : matchesVor s = none) (hd : strptimeDate s = none) :
    ∃ e, age_to_seconds now s = Except.error e := by
  rw [age_to_seconds]
  cases hv : containsVor s with
  | true =>
      rw [if_pos rfl, hm]
      exact ⟨AgeError.typeError, rfl⟩
  | false =>
      rw [if_neg (by simp), hd]
      exact ⟨AgeError.strptimeError s, rfl⟩

theorem age_to_seconds_nonneg_or_future (now : NowTime) (s : String) (v : Int)
    (hsecs : now.secs < 86400) (h : age_to_seconds now s = Except.ok v) :
    0 ≤ v ∨ ∃ d m y, strptimeDate s = some (d, m, y)
      ∧ now.epochDays < days_from_civil y m d := by
  rw [age_to_seconds] at h
  split at h
  · split at h
    · exact absurd h (by simp)
    · rename_i n u _
      split at h
      · rename_i mult _
        simp only [Except.ok.injEq] at h
        left
        rw [← h]
        exact Int.ofNat_nonneg _
      · exact absurd h (by simp)
  · split at h
    · exact absurd h (by simp)
    · rename_i d m y hdmy
      simp only [Except.ok.injEq] at h
      rw [timedelta_days_floor _ _ hsecs] at h
      by_cases hle : days_from_civil y m d ≤ now.epochDays
      · left
        rw [← h]
        have h1 : (0 : Int) ≤ now.epochDays - days_from_civil y m d := by omega
        positivity
      · right
        exact ⟨d, m, y, hdmy, by omega⟩

theorem ebind_ok {α β : Type} (a : α) (f : α → Except PyErr β) :
    (Except.ok a >>= f) = f a := rfl

theorem ebind_err {α β : Type} (e : PyErr) (f : α → Except PyErr β) :
    ((Except.error e : Except PyErr α) >>= f) = Except.error e := rfl

theorem ebind_pure {α β : Type} (a : α) (f : α → Except PyErr β) :
    ((pure a : Except PyErr α) >>= f) = f a := rfl

theorem buildRest_length (now : NowTime) (nowStr : String) (vr : JSON) (len : JSON)
    (r : ResultRecord) (h : buildRest now nowStr vr len = Except.ok (some r)) :
    r.length = len := by
  rw [buildRest] at h
  cases h1 : pyGet vr "publishedTimeText" with
  | error e => simp [h1, ebind_err] at h
  | ok ptt =>
  simp only [h1, ebind_ok] at h
  cases h2 : pyGet ptt "simpleText" with
  | error e => simp [h2, ebind_err] at h
  | ok ageJ =>
  simp only [h2, ebind_ok] at h
  cases ageJ with
  | str age_str =>
      cases h3 : liftAge (age_to_seconds now age_str) with
      | error e => simp [h3, ebind_err] at h
      | ok age_sec =>
      simp only [h3, ebind_ok] at h
      cases h4 : pyGet vr "ownerText" with
      | error e => simp [h4, ebind_err] at h
      | ok ownerText =>
      simp only [h4, ebind_ok] at h
      cases h5 : pyGet ownerText "runs" with
      | error e => simp [h5, ebind_err] at h
      | ok runs =>
      simp only [h5, ebind_ok] at h
      cases h6 : pyIndex0 runs with
      | error e => simp [h6, ebind_err] at h
      | ok run0 =>
      simp only [h6, ebind_ok] at h
      cases h7 : pyGet run0 "text" with
      | error e => simp [h7, ebind_err] at h
      | ok source =>
      simp only [h7, ebind_ok] at h
      cases h8 : pyGet vr "title" with
      | error e => simp [h8, ebind_err] at h
      | ok titleJ =>
      simp only [h8, ebind_ok] at h
      cases h9 : pyGet titleJ "runs" with
      | error e => simp [h9, ebind_err] at h
      | ok truns =>
      simp only [h9, ebind_ok] at h
      cases h10 : pyIndex0 truns with
      | error e => simp [h10, ebind_err] at h
      | ok trun0 =>
      simp only [h10, ebind_ok] at h
      cases h11 : pyGet trun0 "text" with
      | error e => simp [h11, ebind_err] at h
      | ok title =>
      simp only [h11, ebind_ok] at h
      cases h12 : pyGet vr "videoId" with
      | error e => simp [h12, ebind_err] at h
      | ok url =>
      simp only [h12, ebind_ok] at h
      have h13 : Except.ok (some (⟨nowStr, 1, age_str, age_sec, source, title, url, len⟩
          : ResultRecord)) = Except.ok (some r) := h
      simp only [Except.ok.injEq, Option.some.injEq] at h13
      rw [← h13]
  | num n => simp at h
  | bool b => simp at h
  | null => simp at h
  | arr xs => simp at h
  | obj kvs => simp at h

theorem buildRecord_skip (now : NowTime) (nowStr : String) (vr : JSON)
    (h : pyContains "publishedTimeText" vr = Except.ok false) :
    buildRecord now nowStr vr = Except.ok none := by
  rw [buildRecord]
  simp only [h, ebind_ok]
  rw [if_neg (by simp)]
  rfl

theorem buildRecord_length_live (now : NowTime) (nowStr : String) (vr : JSON)
    (r : ResultRecord) (overlays ov0 : JSON)
    (h : buildRecord now nowStr vr = Except.ok (some r))
    (hov : pyGet vr "thumbnailOverlays" = Except.ok overlays)
    (hov0 : pyIndex0 overlays = Except.ok ov0)
    (hts : pyContains "thumbnailOverlayTimeStatusRenderer" ov0 = Except.ok false) :
    r.length = JSON.str "LIVE" := by
  rw [buildRecord] at h
  cases h1 : pyContains "publishedTimeText" vr with
  | error e => simp [h1, ebind_err] at h
  | ok has =>
  simp only [h1, ebind_ok] at h
  cases has with
  | false =>
      rw [if_neg (by simp)] at h
      exact absurd (show Except.ok (none : Option ResultRecord)
          = Except.ok (some r) from h) (by simp)
  | true =>
  rw [if_pos rfl] at h
  simp only [hov, ebind_ok, hov0, hts] at h
  split at h
  · rename_i hcond
    simp at hcond
  · rw [ebind_pure] at h
    exact buildRest_length now nowStr vr (JSON.str "LIVE") r h

theorem buildRecord_length_overlay (now : NowTime) (nowStr : String) (vr : JSON)
    (r : ResultRecord) (overlays ov0 tsr txt t : JSON)
    (h : buildRecord now nowStr vr = Except.ok (some r))
    (hov : pyGet vr "thumbnailOverlays" = Except.ok overlays)
    (hov0 : pyIndex0 overlays = Except.ok ov0)
    (hts : pyContains "thumbnailOverlayTimeStatusRenderer" ov0 = Except.ok true)
    (htsr : pyGet ov0 "thumbnailOverlayTimeStatusRenderer" = Except.ok tsr)
    (htxt : pyGet tsr "text" = Except.ok txt)
    (ht : pyGet txt "simpleText" = Except.ok t) :
    r.length = t := by
  rw [buildRecord] at h
  cases h1 : pyContains "publishedTimeText" vr with
  | error e => simp [h1, ebind_err] at h
  | ok has =>
  simp only [h1, ebind_ok] at h
  cases has with
  | false =>
      rw [if_neg (by simp)] at h
      exact absurd (show Except.ok (none : Option ResultRecord)
          = Except.ok (some r) from h) (by simp)
  | true =>
  rw [if_pos rfl] at h
  simp only [hov, ebind_ok, hov0, hts] at h
  split at h
  · simp only [htsr, ebind_ok, htxt, ht] at h
    exact buildRest_length now nowStr vr t r h
  · rename_i hcond
    simp at hcond

theorem parseLoop_mem (now : NowTime) (nowStr : String) (cands : List JSON)
    (acc res : List ResultRecord)
    (h : parseLoop now nowStr acc cands = Except.ok res) :
    ∀ r ∈ res, r ∈ acc ∨ ∃ vr ∈ cands, buildRecord now nowStr vr = Except.ok (some r) := by
  induction cands generalizing acc with
  | nil =>
      simp only [parseLoop, Except.ok.injEq] at h
      subst h
      intro r hr
      exact Or.inl hr
  | cons vr rest ih =>
      simp only [parseLoop] at h
      split at h
      · rename_i r0 hb
        intro r hr
        rcases ih _ h r hr with hacc | ⟨vr2, hvr2, hb2⟩
        · rcases List.mem_append.mp hacc with h1 | h1
          · exact Or.inl h1
          · have : r = r0 := by simpa using h1
            exact Or.inr ⟨vr, by simp, this ▸ hb⟩
        · exact Or.inr ⟨vr2, List.mem_cons_of_mem _ hvr2, hb2⟩
      · rename_i hb
        intro r hr
        rcases ih _ h r hr with hacc | ⟨vr2, hvr2, hb2⟩
        · exact Or.inl hacc
        · exact Or.inr ⟨vr2, List.mem_cons_of_mem _ hvr2, hb2⟩
      · exact absurd h (by simp)

theorem parse_page_mem (now : NowTime) (nowStr : String) (pageData : JSON)
    (res : List ResultRecord) (h : parse_page now nowStr pageData = Except.ok res) :
    ∀ r ∈ res, ∃ vr ∈ gen_dict_extract "videoRenderer" pageData,
      buildRecord now nowStr vr = Except.ok (some r) := by
  intro r hr
  rcases parseLoop_mem now nowStr _ [] res h r hr with hacc | hex
  · simp at hacc
  · exact hex

/-! ## The claims -/

/-- C1: `gen_dict_extract` yields exactly the values found under
key-value pairs whose key equals the target key, in the traversal order
described by the spec (outer pairs before what is nested under them,
sequence element order preserved): it equals the spec-side traversal
`specExtract` that yields matching pairs and recurses into mapping
values and into sequence elements that are mappings, never into
scalars.  On the spec's example tree it yields exactly `[1, 2, 3]` in
that order, and it yields nothing for a tree containing no occurrence
of the key at all. -/
theorem gen_dict_extract_correct :
    (∀ key v, gen_dict_extract key v = specExtract key v)
    ∧ gen_dict_extract "k" exTree = [.num 1, .num 2, .num 3]
    ∧ (∀ key v, keyOccurs key v = false → gen_dict_extract key v = []) :=
  ⟨extract_eq_specExtract, rfl, extract_nil_of_not_occurs⟩

/-- Witness for C1 at a concrete tree with no occurrence of the key. -/
theorem gen_dict_extract_correct_witness :
    keyOccurs "z" exTree = false ∧ gen_dict_extract "z" exTree = [] :=
  ⟨by decide, gen_dict_extract_correct.2.2 "z" exTree (by decide)⟩

/-- C9: `gen_dict_extract` is total (it is defined as a Lean function
over every JSON tree, so it terminates without error on every shape);
the sequence it yields is finite, bounded by the tree's node count; and
it never yields from keys it does not find: every yielded value sits
under an item with the target key at some mapping node of the tree. -/
theorem gen_dict_extract_safe :
    (∀ key v, (gen_dict_extract key v).length ≤ treeSize v)
    ∧ (∀ key v x, x ∈ gen_dict_extract key v → pairOccurs key x v = true) :=
  ⟨extract_length_le, fun key v x h => pairOccurs_of_mem_extract key x v h⟩

/-- Witness for C9 at a concrete tree and yielded value. -/
theorem gen_dict_extract_safe_witness :
    (JSON.num 1) ∈ gen_dict_extract "k" exTree
    ∧ pairOccurs "k" (.num 1) exTree = true
    ∧ (gen_dict_extract "k" exTree).length ≤ treeSize exTree :=
  ⟨by decide, gen_dict_extract_safe.2 "k" exTree (.num 1) (by decide),
   gen_dict_extract_safe.1 "k" exTree⟩

/-- C10: traversal only begins when the root is a mapping: applied to a
root value that is not a mapping (a sequence or a scalar),
`gen_dict_extract` yields the empty sequence — in particular a
top-level sequence is not traversed, so `[{"k": 1}]` yields nothing
even though a nested mapping contains the key. -/
theorem gen_dict_extract_root_non_mapping :
    (∀ key xs, gen_dict_extract key (JSON.arr xs) = [])
    ∧ (∀ key s, gen_dict_extract key (JSON.str s) = [])
    ∧ (∀ key n, gen_dict_extract key (JSON.num n) = [])
    ∧ (∀ key b, gen_dict_extract key (JSON.bool b) = [])
    ∧ (∀ key, gen_dict_extract key JSON.null = [])
    ∧ gen_dict_extract "k" (JSON.arr [JSON.obj [("k", .num 1)]]) = []
    ∧ keyOccurs "k" (JSON.arr [JSON.obj [("k", .num 1)]]) = true :=
  ⟨fun _ _ => rfl, fun _ _ => rfl, fun _ _ => rfl, fun _ _ => rfl, fun _ => rfl,
   rfl, by decide⟩

/-- C2: `analyze_sources` counts one increment of
`breakdown[source][query]` per record: in the breakdown it returns,
every listed source carries, for every query, an entry equal to the
number of that source's records under that query (0 entries present
rather than missing keys, as in the spec's "twice under q1, never
under q2 gives q1 = 2, q2 = 0" scenario), plus a "total" entry equal
to the sum of its per-query counts; the sources come out ordered
non-increasing by total; and sources with equal totals keep their
first-encounter order (the breakdown is a permutation of the
first-encounter-ordered table `addTotals (buildSources ...)`, and each
equal-total slice of the output equals that table's slice unchanged).
Hypotheses: the query list is duplicate-free and does not contain the
literal key "total", and the result dict's keys are queries of the
list (otherwise the code raises `KeyError`, modelled by `none`). -/
theorem analyze_sources_spec (results : List (String × List ResultRecord))
    (topics : List String) (hnd : topics.Nodup) (htot : "total" ∉ topics)
    (hkeys : ∀ tp ∈ results, tp.1 ∈ topics)
    (hres : (results.map Prod.fst).Nodup) :
    ∃ out, analyze_sources results topics = some out
      ∧ out.Perm (addTotals (buildSources topics (pageEntries results)))
      ∧ (∀ s inner, (s, inner) ∈ out →
          (∀ q ∈ topics, dictGet q inner = some (cnt q s (pageEntries results)))
          ∧ (∀ q pages, dictGet q results = some pages →
              dictGet q inner = some (pages.countP (fun r => decide (r.source = s))))
          ∧ dictGet "total" inner
              = some ((topics.map (fun q => cnt q s (pageEntries results))).sum))
      ∧ out.Pairwise (fun a b => totalOf b.2 ≤ totalOf a.2)
      ∧ (∀ t, out.filter (fun y => decide (totalOf y.2 = t))
            = (addTotals (buildSources topics (pageEntries results))).filter
                (fun y => decide (totalOf y.2 = t)))
      ∧ (addTotals (buildSources topics (pageEntries results))).map Prod.fst
          = firstSources (pageEntries results) := by
  have hkeys2 : ∀ e ∈ pageEntries results, e.1 ∈ topics := by
    intro e he
    obtain ⟨tp, htp, heq⟩ := pageEntries_fst_mem results e he
    rw [heq]
    exact hkeys tp htp
  have hcount := countAll_build topics results hnd hkeys2
  refine ⟨rankSort (addTotals (buildSources topics (pageEntries results))),
      ?_, rankSort_perm _, ?_, rankSort_pairwise _, fun t => rankSort_filter _ t, ?_⟩
  · simp only [analyze_sources, hcount]
  · intro s inner hmem
    have hmem2 := (rankSort_perm _).subset hmem
    obtain ⟨hsFS, hinner⟩ := mem_addTotals_build topics (pageEntries results) s inner hmem2
    subst hinner
    refine ⟨?_, ?_, ?_⟩
    · intro q hq
      exact inner_topic_get topics htot _ q hq
    · intro q pages hget
      have hq : q ∈ topics := by
        have hmem3 := dictGet_some_mem q pages results hget
        exact hkeys (q, pages) hmem3
      rw [inner_topic_get topics htot _ q hq]
      rw [cnt_pageEntries_get results hres q pages hget s]
    · exact inner_total_get topics htot _
  · rw [addTotals_fst, buildSources_fst]

/-- Witness for C2: the spec's tie/zero-count scenario, with source "X"
twice under "q1" and never under "q2".  Applying the claim theorem to it
yields the concrete ranked breakdown, which is non-increasing by total
with per-query zero counts present. -/
theorem analyze_sources_spec_witness :
    analyze_sources exResults exTopics
      = some [(JSON.str "X", [("q1", 2), ("q2", 0), ("total", 2)]),
              (JSON.str "Y", [("q1", 0), ("q2", 1), ("total", 1)])]
    ∧ List.Pairwise (fun a b => totalOf b.2 ≤ totalOf a.2)
        [((JSON.str "X" : JSON), [("q1", (2 : Nat)), ("q2", 0), ("total", 2)]),
         (JSON.str "Y", [("q1", 0), ("q2", 1), ("total", 1)])] := by
  obtain ⟨out, h1, h2, h3, h4, h5, h6⟩ :=
    analyze_sources_spec exResults exTopics (by decide) (by decide) (by decide)
      (by decide)
  have hval : analyze_sources exResults exTopics
      = some [(JSON.str "X", [("q1", 2), ("q2", 0), ("total", 2)]),
              (JSON.str "Y", [("q1", 0), ("q2", 1), ("total", 1)])] := by decide
  have hout : out = [(JSON.str "X", [("q1", 2), ("q2", 0), ("total", 2)]),
      (JSON.str "Y", [("q1", 0), ("q2", 1), ("total", 1)])] := by
    rw [hval] at h1
    exact (Option.some.injEq _ _).mp h1.symm
  exact ⟨hval, hout ▸ h4⟩

/-- C3: for a non-empty dict of result lists, `trim_results` returns an
effective length that is exactly `min(maxLength, minimum list length)`
(it is at most `maxLength`, at most every list's length, and attained
by `maxLength` or by some list), and a dict in which every list is
truncated to its first `effectiveLength` records with no reordering, so
that afterwards every list has exactly the effective length. -/
theorem trim_results_spec {α : Type} (results : List (String × List α))
    (maxLength : Nat) (_hne : results ≠ [])
    (hnd : (results.map Prod.fst).Nodup) :
    (trim_results results maxLength).2 ≤ maxLength
    ∧ (∀ tp ∈ results, (trim_results results maxLength).2 ≤ tp.2.length)
    ∧ ((trim_results results maxLength).2 = maxLength
        ∨ ∃ tp ∈ results, (trim_results results maxLength).2 = tp.2.length)
    ∧ (trim_results results maxLength).1
        = results.map (fun tp => (tp.1, tp.2.take (trim_results results maxLength).2))
    ∧ (∀ tp2 ∈ (trim_results results maxLength).1,
        tp2.2.length = (trim_results results maxLength).2) := by
  have he : (trim_results results maxLength).2 = trimMinLen results maxLength := rfl
  have h1 : (trim_results results maxLength).2 ≤ maxLength := by
    rw [he]
    exact trimMinLen_le_start results maxLength
  have h2 : ∀ tp ∈ results, (trim_results results maxLength).2 ≤ tp.2.length := by
    intro tp htp
    rw [he]
    exact trimMinLen_le_mem results maxLength tp htp
  have h4 : (trim_results results maxLength).1
      = results.map (fun tp => (tp.1, tp.2.take (trim_results results maxLength).2)) := by
    show results.foldl (fun acc tp => dictSet tp.1 (tp.2.take (trimMinLen results maxLength)) acc) []
        = _
    rw [trim_build_eq_map results (trimMinLen results maxLength) [] hnd
        (fun k _ => rfl), List.nil_append, he]
  refine ⟨h1, h2, ?_, h4, ?_⟩
  · rw [he]
    rcases trimMinLen_attained results maxLength with h | ⟨tp, htp, hh⟩
    · exact Or.inl h
    · exact Or.inr ⟨tp, htp, hh⟩
  · intro tp2 htp2
    rw [h4] at htp2
    obtain ⟨tp, htp, heq⟩ := List.mem_map.mp htp2
    rw [← heq]
    simp only [List.length_take]
    exact Nat.min_eq_left (h2 tp htp)

/-- Witness for C3 at the spec's example `{"a": [1,2,3,4], "b": [1,2]}`
with the default `max_length`: the effective length is 2 and both lists
are cut to their first two records. -/
theorem trim_results_spec_witness :
    (trim_results [("a", [1, 2, 3, 4]), ("b", [1, 2])] 9999999).2 = 2
    ∧ (trim_results [("a", [(1 : Nat), 2, 3, 4]), ("b", [1, 2])] 9999999).1
        = [("a", [1, 2]), ("b", [1, 2])] := by
  obtain ⟨h1, h2, h3, h4, h5⟩ :=
    trim_results_spec [("a", [(1 : Nat), 2, 3, 4]), ("b", [1, 2])] 9999999
      (by simp) (by simp)
  exact ⟨by decide, by rw [h4]; decide⟩

/-- C4: for every string the relative-age regex matches (prefix
`vor <N> <unit>` in `re.match` semantics) whose captured unit word is
recognized — singular and plural forms share one multiplier —
`age_to_seconds` returns N times the fixed multiplier (second=1,
minute=60, hour=3600, day=86400, week=604800, month=2592000,
year=31104000); in particular "vor 3 Stunden" gives 10800,
"vor 1 Tag" gives 86400 and "vor 2 Wochen" gives 1209600, at any
current time. -/
theorem age_to_seconds_relative_spec :
    (∀ now s n u mult, matchesVor s = some (n, u) →
        unit_multiplier u = some mult →
        age_to_seconds now s = Except.ok (((mult * n : Nat) : Int)))
    ∧ (∀ now, age_to_seconds now "vor 3 Stunden" = Except.ok 10800
        ∧ age_to_seconds now "vor 1 Tag" = Except.ok 86400
        ∧ age_to_seconds now "vor 2 Wochen" = Except.ok 1209600) :=
  ⟨age_to_seconds_rel_ok, fun _ => ⟨rfl, rfl, rfl⟩⟩

/-- Witness for C4 at "vor 7 Minuten". -/
theorem age_to_seconds_relative_spec_witness :
    matchesVor "vor 7 Minuten" = some (7, "Minuten")
    ∧ unit_multiplier "Minuten" = some 60
    ∧ age_to_seconds ⟨20000, 0⟩ "vor 7 Minuten" = Except.ok 420 :=
  ⟨by decide, by decide, by
    have h := age_to_seconds_relative_spec.1 ⟨20000, 0⟩ "vor 7 Minuten" 7 "Minuten"
      60 (by decide) (by decide)
    exact h.trans (by norm_num)⟩

/-- C6: every string that parses as an absolute date `DD.MM.YYYY`
contains no "vor" substring (so the relative branch cannot fire), and
`age_to_seconds` returns 86400 times the whole number of days between
that date and now — the time of day (any `secs < 86400`) is truncated
away; in particular "15.01.2023" gives `86400 * (today - 15 Jan 2023 in
days)` for every current date. -/
theorem age_to_seconds_absolute_spec :
    (∀ now s d m y, now.secs < 86400 → strptimeDate s = some (d, m, y) →
        containsVor s = false
        ∧ age_to_seconds now s
            = Except.ok (86400 * (now.epochDays - days_from_civil y m d)))
    ∧ (∀ nd secs, secs < 86400 →
        age_to_seconds ⟨nd, secs⟩ "15.01.2023"
          = Except.ok (86400 * (nd - days_from_civil 2023 1 15))) :=
  ⟨fun now s d m y hs h =>
    ⟨containsVor_false_of_strptime s d m y h, age_to_seconds_abs_ok now s d m y hs h⟩,
   fun nd secs hs => age_to_seconds_abs_ok ⟨nd, secs⟩ "15.01.2023" 15 1 2023 hs (by decide)⟩

/-- Witness for C6 at a concrete date and time of day (2023-01-15 is
epoch day 19372). -/
theorem age_to_seconds_absolute_spec_witness :
    strptimeDate "15.01.2023" = some (15, 1, 2023)
    ∧ days_from_civil 2023 1 15 = 19372
    ∧ age_to_seconds ⟨20000, 3600⟩ "15.01.2023" = Except.ok (86400 * (20000 - 19372)) := by
  refine ⟨by decide, by decide, ?_⟩
  have h := age_to_seconds_absolute_spec.2 20000 3600 (by norm_num)
  have hd : days_from_civil 2023 1 15 = 19372 := by decide
  rw [h, hd]

/-- C7: a relative-pattern match with an unrecognized unit word fails
with the `ValueError` whose message names the offending unit (the
message embeds the whole input, of which the captured unit is a
substring); an input that matches neither the relative pattern nor the
`DD.MM.YYYY` date pattern always fails (the code raises `TypeError` on
the dead `re.match` result when "vor" occurs as a substring, and
`strptime` raises otherwise) — it never returns a value; in particular
"vor 5 Lichtjahren" fails with the unit-not-recognized error. -/
theorem age_to_seconds_error_spec :
    (∀ now s n u, matchesVor s = some (n, u) → unit_multiplier u = none →
        age_to_seconds now s = Except.error (AgeError.valueError (ageFormatMsg s))
        ∧ ∃ pre post, (ageFormatMsg s).data = pre ++ u.data ++ post)
    ∧ (∀ now s, matchesVor s = none → strptimeDate s = none →
        ∃ e, age_to_seconds now s = Except.error e)
    ∧ (∀ now, age_to_seconds now "vor 5 Lichtjahren"
        = Except.error (AgeError.valueError (ageFormatMsg "vor 5 Lichtjahren"))) :=
  ⟨fun now s n u hm hu =>
    ⟨age_to_seconds_rel_err now s n u hm hu, ageFormatMsg_contains_unit s n u hm⟩,
   age_to_seconds_err_of_no_match,
   fun _ => rfl⟩

/-- Witness for C7 at "vor 5 Lichtjahren" (unrecognized unit) and
"Hallo Welt" (matches neither pattern). -/
theorem age_to_seconds_error_spec_witness :
    matchesVor "vor 5 Lichtjahren" = some (5, "Lichtjahren")
    ∧ unit_multiplier "Lichtjahren" = none
    ∧ age_to_seconds ⟨20000, 0⟩ "vor 5 Lichtjahren"
        = Except.error (AgeError.valueError (ageFormatMsg "vor 5 Lichtjahren"))
    ∧ (∃ pre post, (ageFormatMsg "vor 5 Lichtjahren").data
        = pre ++ ("Lichtjahren").data ++ post)
    ∧ matchesVor "Hallo Welt" = none
    ∧ strptimeDate "Hallo Welt" = none
    ∧ (∃ e, age_to_seconds ⟨20000, 0⟩ "Hallo Welt" = Except.error e) := by
  obtain ⟨ha, hb⟩ := age_to_seconds_error_spec.1 ⟨20000, 0⟩ "vor 5 Lichtjahren" 5
    "Lichtjahren" (by decide) (by decide)
  exact ⟨by decide, by decide, ha, hb, by decide, by decide,
    age_to_seconds_error_spec.2.1 ⟨20000, 0⟩ "Hallo Welt" (by decide) (by decide)⟩

/-- C8 counterexample: the absolute date "01.01.2999" (epoch day
375835) parses, and on a day in 2024 (epoch day 20000)
`age_to_seconds` succeeds with a strictly negative value, refuting
"the output is non-negative for every input on which normalizeAge
succeeds". -/
theorem age_to_seconds_nonneg_counterexample :
    age_to_seconds ⟨20000, 0⟩ "01.01.2999" = Except.ok (86400 * (20000 - 375835))
    ∧ (86400 * ((20000 : Int) - 375835)) < 0 :=
  ⟨rfl, by norm_num⟩

/-- C8 (amended): whenever `age_to_seconds` succeeds, its value is
non-negative unless the input was an absolute date lying strictly in
the future of the current date (a relative input always yields a
non-negative value, and a past or current absolute date does too). -/
theorem age_to_seconds_nonneg_amended :
    ∀ now s v, now.secs < 86400 → age_to_seconds now s = Except.ok v →
      0 ≤ v ∨ ∃ d m y, strptimeDate s = some (d, m, y)
        ∧ now.epochDays < days_from_civil y m d :=
  age_to_seconds_nonneg_or_future

/-- Witness for the amended C8 at a relative input. -/
theorem age_to_seconds_nonneg_amended_witness :
    age_to_seconds ⟨20000, 0⟩ "vor 3 Stunden" = Except.ok 10800
    ∧ (0 ≤ (10800 : Int)
        ∨ ∃ d m y, strptimeDate "vor 3 Stunden" = some (d, m, y)
          ∧ (20000 : Int) < days_from_civil y m d) :=
  ⟨rfl, age_to_seconds_nonneg_amended ⟨20000, 0⟩ "vor 3 Stunden" 10800
    (by norm_num) rfl⟩

/-- C5: in the page-parsing loop, a candidate whose membership test for
"publishedTimeText" comes back false is skipped entirely — it
contributes no record and no error; every record the loop emits comes
from some extracted candidate; and for an emitted record, if the first
thumbnail-overlay entry lacks the "thumbnailOverlayTimeStatusRenderer"
sub-structure the record's length is the sentinel "LIVE", while if it
is present the record's length is that structure's `text.simpleText`
value. -/
theorem parse_page_filter_length_spec :
    (∀ now nowStr vr, pyContains "publishedTimeText" vr = Except.ok false →
        buildRecord now nowStr vr = Except.ok none)
    ∧ (∀ now nowStr pageData res, parse_page now nowStr pageData = Except.ok res →
        ∀ r ∈ res, ∃ vr ∈ gen_dict_extract "videoRenderer" pageData,
          buildRecord now nowStr vr = Except.ok (some r))
    ∧ (∀ now nowStr vr r overlays ov0,
        buildRecord now nowStr vr = Except.ok (some r) →
        pyGet vr "thumbnailOverlays" = Except.ok overlays →
        pyIndex0 overlays = Except.ok ov0 →
        pyContains "thumbnailOverlayTimeStatusRenderer" ov0 = Except.ok false →
        r.length = JSON.str "LIVE")
    ∧ (∀ now nowStr vr r overlays ov0 tsr txt t,
        buildRecord now nowStr vr = Except.ok (some r) →
        pyGet vr "thumbnailOverlays" = Except.ok overlays →
        pyIndex0 overlays = Except.ok ov0 →
        pyContains "thumbnailOverlayTimeStatusRenderer" ov0 = Except.ok true →
        pyGet ov0 "thumbnailOverlayTimeStatusRenderer" = Except.ok tsr →
        pyGet tsr "text" = Except.ok txt →
        pyGet txt "simpleText" = Except.ok t →
        r.length = t) :=
  ⟨buildRecord_skip, parse_page_mem,
   fun now nowStr vr r overlays ov0 h hov hov0 hts =>
     buildRecord_length_live now nowStr vr r overlays ov0 h hov hov0 hts,
   fun now nowStr vr r overlays ov0 tsr txt t h hov hov0 hts htsr htxt ht =>
     buildRecord_length_overlay now nowStr vr r overlays ov0 tsr txt t h hov hov0
       hts htsr htxt ht⟩

/-- Witness for C5 on a concrete page with one live, one skipped and
one regular candidate. -/
theorem parse_page_filter_length_spec_witness :
    pyContains "publishedTimeText" vrSkip = Except.ok false
    ∧ buildRecord exNow "ts" vrSkip = Except.ok none
    ∧ buildRecord exNow "ts" vrLive = Except.ok (some
        ⟨"ts", 1, "vor 3 Stunden", 10800, .str "ChanA", .str "TitleA", .str "id1",
          .str "LIVE"⟩)
    ∧ (⟨"ts", 1, "vor 3 Stunden", 10800, .str "ChanA", .str "TitleA", .str "id1",
          .str "LIVE"⟩ : ResultRecord).length = JSON.str "LIVE"
    ∧ (⟨"ts", 1, "vor 1 Tag", 86400, .str "ChanB", .str "TitleB", .str "id2",
          .str "10:23"⟩ : ResultRecord).length = JSON.str "10:23" := by
  refine ⟨rfl, parse_page_filter_length_spec.1 exNow "ts" vrSkip rfl,
    rfl, ?_, ?_⟩
  · exact parse_page_filter_length_spec.2.2.1 exNow "ts" vrLive _
      (.arr [.obj [("other", .null)]]) (.obj [("other", .null)])
      rfl rfl rfl rfl
  · exact parse_page_filter_length_spec.2.2.2 exNow "ts" vrDur _
      (.arr [.obj [("thumbnailOverlayTimeStatusRenderer",
        .obj [("text", .obj [("simpleText", .str "10:23")])])]])
      (.obj [("thumbnailOverlayTimeStatusRenderer",
        .obj [("text", .obj [("simpleText", .str "10:23")])])])
      (.obj [("text", .obj [("simpleText", .str "10:23")])])
      (.obj [("simpleText", .str "10:23")]) (.str "10:23")
      rfl rfl rfl rfl rfl rfl rfl

end YtScraper
